import Mathlib

/-!
Verification of the splay MIDI player against its specification.

The development shallowly embeds the C++ sources: bytes are natural numbers
below 256, byte streams are lists, fallible code returns Except String, and
machine arithmetic is made explicit.  Failed assert statements in the source
are modelled as fatal errors, matching the error taxonomy of the spec.
-/

namespace Splay

/-- From src/midi.cpp pack_u16: big-endian packing of two bytes. -/
def pack_u16 (a b : Nat) : Nat := a * 256 + b

/-- From src/midi.cpp pack_u32: big-endian packing of four bytes. -/
def pack_u32 (a b c d : Nat) : Nat := ((a * 256 + b) * 256 + c) * 256 + d

/-- From src/midi.cpp track::get_u8: read one byte, failing at end of track
(check_available throws "Unexpected end of track"). -/
def get_u8 (data : List Nat) (pos : Nat) : Except String (Nat × Nat) :=
  match data.get? pos with
  | some b => .ok (b, pos + 1)
  | none => .error "Unexpected end of track"

/-- Loop body shared by src/midi.cpp read_var_num (lines 41-54) and
track::get_var_num (lines 193-205): accumulate 7 bits per byte while the top
bit of the byte is set; the fuel counts the remaining loop iterations out of
four, and the assert on a fourth continuation byte is modelled as the
MalformedVLQ error. -/
def get_var_num_aux (data : List Nat) : Nat → Nat → Nat → Except String (Nat × Nat)
  | 0, _, _ => .error "MalformedVLQ"
  | fuel + 1, result, pos =>
    match get_u8 data pos with
    | .error e => .error e
    | .ok (ch, pos1) =>
      let result1 := result * 128 + ch % 128
      if ch < 128 then .ok (result1, pos1)
      else if fuel = 0 then .error "MalformedVLQ"
      else get_var_num_aux data fuel result1 pos1

/-- From src/midi.cpp read_var_num / track::get_var_num: decode one
variable-length quantity starting at pos. -/
def read_var_num (data : List Nat) (pos : Nat) : Except String (Nat × Nat) :=
  get_var_num_aux data 4 0 pos

/-- Events dispatched by track::next_division to its visitor
(src/midi.cpp lines 211-296).  Channel events carry the already-translated
piano key exactly as the source passes it to the visitor. -/
inductive Event where
  | note_off (channel pkey vel : Nat)
  | note_on (channel pkey vel : Nat)
  | polyphonic_key_pressure (channel pkey pressure : Nat)
  | controller_change (channel controller value : Nat)
  | program_change (channel program : Nat)
  | meta (type : Nat) (payload : List Nat)
deriving Repr, DecidableEq

/-- From src/midi.cpp lines 261-262: piano_key::A_4 + (key - midi_a4) with
A_4 = 49 and midi_a4 = 69.  In C++ the value below 21 wraps through the
unsigned char enum; every such value fails the piano_key_valid assert, and the
natural-number truncation used here is likewise invalid, so the observable
behaviour agrees. -/
def piano_key_of_midi (key : Nat) : Nat := 49 + key - 69

/-- From src/note.h piano_key_valid: A_0 (1) up to C_8 (88). -/
def piano_key_valid (n : Nat) : Prop := 1 ≤ n ∧ n ≤ 88

instance piano_key_valid_dec (n : Nat) : Decidable (piano_key_valid n) :=
  inferInstanceAs (Decidable (1 ≤ n ∧ n ≤ 88))

/-- From src/midi.cpp track::do_meta_event (lines 298-342).  The recognized
types check their payload length and otherwise only print; the default branch
prints a diagnostic and then hits assert(false), modelled as a fatal error. -/
def do_meta_event (type : Nat) (payload : List Nat) : Except String Unit :=
  if type = 0x02 then .ok ()
  else if type = 0x03 then .ok ()
  else if type = 0x2F then
    if payload.length ≠ 0 then .error "Invalid end of track length" else .ok ()
  else if type = 0x51 then
    if payload.length ≠ 3 then .error "Invalid tempo change length" else .ok ()
  else if type = 0x58 then
    if payload.length ≠ 4 then .error "Invalid time signature length" else .ok ()
  else if type = 0x59 then
    if payload.length ≠ 2 then .error "Invalid key signature length" else .ok ()
  else .error "assert failed: unrecognized meta event type"

/-- From src/midi.cpp lines 242-291: decode one channel-voice message whose
status byte (explicit or running) is given; pos points at the first data
byte.  Asserts on the running-status range, on data bytes with the high bit
set and on out-of-range piano keys are modelled as fatal errors.  The switch
handles status nibbles 8 to 0xC; nibbles 0xD and 0xE fall into the default
branch ("Unhandled midi message", assert(false)). -/
def decode_channel_message (data : List Nat) (pos status : Nat) :
    Except String (Event × Nat × Nat) :=
  if status < 0x80 ∨ 0xE0 < status then .error "assert failed: running status out of range"
  else
    let channel := status % 16
    let cmd := status / 16
    if cmd ≤ 10 then
      match get_u8 data pos with
      | .error e => .error e
      | .ok (key, pos1) =>
        match get_u8 data pos1 with
        | .error e => .error e
        | .ok (vel, pos2) =>
          if 128 ≤ key then .error "InvalidDataByte"
          else if 128 ≤ vel then .error "InvalidDataByte"
          else
            let pkey := piano_key_of_midi key
            if ¬ piano_key_valid pkey then .error "assert failed: piano_key_valid"
            else if cmd = 8 then .ok (.note_off channel pkey vel, pos2, status)
            else if cmd = 9 then .ok (.note_on channel pkey vel, pos2, status)
            else .ok (.polyphonic_key_pressure channel pkey vel, pos2, status)
    else if cmd = 11 then
      match get_u8 data pos with
      | .error e => .error e
      | .ok (con, pos1) =>
        match get_u8 data pos1 with
        | .error e => .error e
        | .ok (val, pos2) =>
          if 128 ≤ con then .error "InvalidDataByte"
          else if 128 ≤ val then .error "InvalidDataByte"
          else .ok (.controller_change channel con val, pos2, status)
    else if cmd = 12 then
      match get_u8 data pos with
      | .error e => .error e
      | .ok (prog, pos1) =>
        if 128 ≤ prog then .error "InvalidDataByte"
        else .ok (.program_change channel prog, pos1, status)
    else .error "Unhandled midi message"

/-- From src/midi.cpp lines 224-292: decode the single event whose delta time
has elapsed; pos points at the command byte.  Returns the event, the position
after the event and the updated running status. -/
def decode_event (data : List Nat) (pos lm : Nat) : Except String (Event × Nat × Nat) :=
  match data.get? pos with
  | none => .error "Unexpected end of track"
  | some command =>
    if command / 16 = 15 then
      if command = 0xFF then
        match get_u8 data (pos + 1) with
        | .error e => .error e
        | .ok (mtype, pos1) =>
          if 0x80 ≤ mtype then .error "assert failed: meta event type"
          else
            match read_var_num data pos1 with
            | .error e => .error e
            | .ok (mlen, pos2) =>
              if data.length < pos2 + mlen then .error "Unexpected end of track"
              else
                let payload := (data.drop pos2).take mlen
                match do_meta_event mtype payload with
                | .error e => .error e
                | .ok _ => .ok (.meta mtype payload, pos2 + mlen, lm)
      else .error "Unsupported system event"
    else
      if 128 ≤ command then decode_channel_message data (pos + 1) command
      else decode_channel_message data pos lm

/-- State of src/midi.cpp class track: the owned byte buffer, read position,
running status last_message_ and count_down_ (none models the value -1). -/
structure TrackState where
  data : List Nat
  pos : Nat
  last_message : Nat
  count_down : Option Nat
deriving Repr, DecidableEq

/-- From src/midi.cpp track::done. -/
def TrackState.done (st : TrackState) : Bool := st.data.length ≤ st.pos

/-- From src/midi.cpp track::track: pos_ 0, last_message_ 0, count_down_ -1. -/
def TrackState.init (data : List Nat) : TrackState := ⟨data, 0, 0, none⟩

/-- From src/midi.cpp track::next_division (lines 211-296): the while loop,
with fuel bounding the number of loop iterations.  Each call dispatches every
event of the current division and stops either at end of track or after
decrementing a positive countdown. -/
def next_division_aux (data : List Nat) : Nat → Nat → Nat → Option Nat →
    Except String (TrackState × List Event)
  | 0, _, _, _ => .error "out of fuel"
  | fuel + 1, pos, lm, cd =>
    if data.length ≤ pos then .ok (⟨data, pos, lm, cd⟩, [])
    else
      match cd with
      | none =>
        match read_var_num data pos with
        | .error e => .error e
        | .ok (delta, pos1) =>
          if delta = 0 then
            match decode_event data pos1 lm with
            | .error e => .error e
            | .ok (ev, pos2, lm2) =>
              match next_division_aux data fuel pos2 lm2 none with
              | .error e => .error e
              | .ok (st, evs) => .ok (st, ev :: evs)
          else .ok (⟨data, pos1, lm, some (delta - 1)⟩, [])
      | some k =>
        if k = 0 then
          match decode_event data pos lm with
          | .error e => .error e
          | .ok (ev, pos2, lm2) =>
            match next_division_aux data fuel pos2 lm2 none with
            | .error e => .error e
            | .ok (st, evs) => .ok (st, ev :: evs)
        else .ok (⟨data, pos, lm, some (k - 1)⟩, [])

/-- One call of track::next_division; the fuel data.length + 1 dominates the
loop iteration count because every iteration that does not return consumes at
least one input byte. -/
def next_division (st : TrackState) : Except String (TrackState × List Event) :=
  next_division_aux st.data (st.data.length + 1) st.pos st.last_message st.count_down

/-- Iterate next_division, collecting the events of each successive division;
this is the per-track view of the division loop in player::impl::impl
(src/midi.cpp lines 509-517). -/
def run_divisions : Nat → TrackState → Except String (TrackState × List (List Event))
  | 0, st => .ok (st, [])
  | n + 1, st =>
    match next_division st with
    | .error e => .error e
    | .ok (st1, evs) =>
      match run_divisions n st1 with
      | .error e => .error e
      | .ok (st2, rest) => .ok (st2, evs :: rest)

/-- Reference decode of a whole track into absolute-time events: each event is
stamped with the cumulative delta-tick sum, as in the event loop of
src/midi.cpp read_track (current_time += delta_time, lines 363-475). -/
def decode_track_aux (data : List Nat) : Nat → Nat → Nat → Nat →
    Except String (List (Nat × Event))
  | 0, _, _, _ => .error "out of fuel"
  | fuel + 1, pos, lm, t =>
    if data.length ≤ pos then .ok []
    else
      match read_var_num data pos with
      | .error e => .error e
      | .ok (delta, pos1) =>
        match decode_event data pos1 lm with
        | .error e => .error e
        | .ok (ev, pos2, lm2) =>
          match decode_track_aux data fuel pos2 lm2 (t + delta) with
          | .error e => .error e
          | .ok rest => .ok ((t + delta, ev) :: rest)

/-- Decode a complete track from its start. -/
def decode_track (data : List Nat) : Except String (List (Nat × Event)) :=
  decode_track_aux data (data.length + 1) 0 0 0

/-- The MThd chunk tag as packed by src/midi.cpp header_chunk_type. -/
def header_chunk_type : Nat := 0x4D546864

/-- The MTrk chunk tag as packed by src/midi.cpp track_chunk_type. -/
def track_chunk_type : Nat := 0x4D54726B

/-- From src/midi.cpp read_chunk_header (lines 90-97): a 4-byte tag and a
4-byte big-endian length; a failed stream read yields tag 0 and length 0. -/
def read_chunk_header (bytes : List Nat) : (Nat × Nat) × List Nat :=
  match bytes with
  | a :: b :: c :: d :: e :: f :: g :: h :: rest =>
    ((pack_u32 a b c d, pack_u32 e f g h), rest)
  | _ => ((0, 0), [])

/-- From src/midi.cpp player::impl::impl (lines 484-498): read and validate
the file header chunk, then the format, track count and division fields.  The
division field is read but not validated. -/
def load_header (bytes : List Nat) : Except String (Nat × Nat × Nat × List Nat) :=
  match read_chunk_header bytes with
  | ((tag, len), rest) =>
    if tag ≠ header_chunk_type ∨ len ≠ 6 then .error "Invalid MIDI header"
    else
      match rest with
      | f1 :: f2 :: t1 :: t2 :: d1 :: d2 :: rest2 =>
        let format := pack_u16 f1 f2
        let tracks := pack_u16 t1 t2
        let division := pack_u16 d1 d2
        if format ≠ 1 then .error "Unsupported MIDI format"
        else .ok (format, tracks, division, rest2)
      | _ => .error "Unexpected EOF"

/-- From src/midi.cpp read_track (lines 344-361): read one MTrk chunk header
and copy its payload. -/
def read_track (bytes : List Nat) : Except String (List Nat × List Nat) :=
  match read_chunk_header bytes with
  | ((tag, len), rest) =>
    if len = 0 then .error "Unexpected EOF"
    else if tag ≠ track_chunk_type then .error "Invalid track header"
    else if rest.length < len then .error "Unexpected EOF"
    else .ok (rest.take len, rest.drop len)

/-- Read the given number of track chunks, as the loop over track_number in
player::impl::impl does. -/
def load_tracks : Nat → List Nat → Except String (List (List Nat))
  | 0, _ => .ok []
  | n + 1, bytes =>
    match read_track bytes with
    | .error e => .error e
    | .ok (t, rest) =>
      match load_tracks n rest with
      | .error e => .error e
      | .ok ts => .ok (t :: ts)

/-- From src/midi.cpp player::impl::impl: header validation followed by
reading the track chunks.  The track count is a signed 16-bit field; a
negative value makes the uint16 loop run zero times. -/
def player_load (bytes : List Nat) : Except String (Nat × List (List Nat)) :=
  match load_header bytes with
  | .error e => .error e
  | .ok (_, tracks, division, rest) =>
    let num := if tracks < 0x8000 then tracks else 0
    match load_tracks num rest with
    | .error e => .error e
    | .ok ts => .ok (division, ts)

/-- From src/main.cpp lines 39-44 (identical in the output_dev of the later
revision): clamp the truncated sample value to the 16-bit range.  The
float-to-int truncation result is modelled as an arbitrary integer input. -/
def float_to_short (i : Int) : Int :=
  if i < -32768 then -32768 else if i > 32767 then 32767 else i

/-! ## Voice engine (simple_midi_channel, src/unnamed/part_003) -/

/-- States of the signal_envelope state machine (part_003 lines 147-249).
Only the transitions driven by key_on and key_off matter for the allocation
claims; the level ramp runs at render time. -/
inductive EnvState where
  | off
  | attack
  | decay
  | sustain
  | release
deriving Repr, DecidableEq

/-- From part_003 signal_envelope::key_off: only effective when not off. -/
def EnvState.key_off (s : EnvState) : EnvState := if s = .off then .off else .release

/-- The per-voice state of simple_midi_channel::voice (part_003 lines
431-488): bound piano key (0 is piano_key::OFF), velocity, envelope state and
samples_played_ counter. -/
structure Voice where
  key : Nat
  vel : Nat
  env : EnvState
  samples_played : Nat
deriving Repr, DecidableEq

/-- A default-constructed voice: key_ = piano_key::OFF, vel_ = 0,
samples_played_ = 0, envelope off. -/
def Voice.init : Voice := ⟨0, 0, .off, 0⟩

/-- From part_003 voice::key_on (lines 437-446). -/
def Voice.key_on (v : Voice) (key vel : Nat) : Voice :=
  { v with key := key, vel := vel, env := .attack, samples_played := 0 }

/-- From part_003 voice::key_off. -/
def Voice.key_off (v : Voice) : Voice := { v with env := v.env.key_off }

/-- From part_003 voice::active. -/
def Voice.active (v : Voice) : Bool := v.key ≠ 0 && v.env ≠ .off

/-- From part_003 voice::compare_samples_played (lines 475-477). -/
def compare_samples_played (l r : Voice) : Bool := l.samples_played < r.samples_played

/-- Index of the first list element satisfying p, as std::find_if returns the
first matching iterator. -/
def find_index (p : Voice → Bool) : List Voice → Option Nat
  | [] => none
  | v :: rest => if p v then some 0 else (find_index p rest).map (· + 1)

/-- From part_003 simple_midi_channel::find_key (lines 495-498). -/
def find_key (voices : List Voice) (key : Nat) : Option Nat :=
  find_index (fun v => v.key = key) voices

/-- The scan of std::max_element with voice::compare_samples_played: keep the
current best and replace it only when a later element compares strictly
greater, so the first maximal element wins. -/
def max_element_aux : Nat → Voice → Nat → List Voice → Nat
  | best_idx, _, _, [] => best_idx
  | best_idx, best, i, v :: rest =>
    if compare_samples_played best v then max_element_aux i v (i + 1) rest
    else max_element_aux best_idx best (i + 1) rest

/-- Index returned by std::max_element over the voice pool (part_003 line
376). -/
def max_element_idx : List Voice → Nat
  | [] => 0
  | v :: rest => max_element_aux 0 v 1 rest

/-- Update the i-th voice in place. -/
def update_voice : List Voice → Nat → (Voice → Voice) → List Voice
  | [], _, _ => []
  | v :: rest, 0, f => f v :: rest
  | v :: rest, i + 1, f => v :: update_voice rest i f

/-- From part_003 simple_midi_channel::note_off (lines 355-359). -/
def note_off (voices : List Voice) (key : Nat) : List Voice :=
  match find_key voices key with
  | some i => update_voice voices i Voice.key_off
  | none => voices

/-- The voice chosen by simple_midi_channel::note_on (lines 367-377): the
voice already bound to the key, else the first inactive voice, else the
std::max_element steal target. -/
def alloc_index (voices : List Voice) (key : Nat) : Nat :=
  match find_key voices key with
  | some i => i
  | none =>
    match find_index (fun v => !v.active) voices with
    | some j => j
    | none => max_element_idx voices

/-- From part_003 simple_midi_channel::note_on (lines 361-380). -/
def note_on (voices : List Voice) (key vel : Nat) : List Voice :=
  if vel = 0 then note_off voices key
  else update_voice voices (alloc_index voices key) (fun v => v.key_on key vel)

/-- A note-on or note-off operation delivered to one channel. -/
inductive ChanOp where
  | key_on (key vel : Nat)
  | key_off (key : Nat)
deriving Repr, DecidableEq

/-- Apply one channel operation to the voice pool. -/
def apply_op (voices : List Voice) : ChanOp → List Voice
  | .key_on k v => note_on voices k v
  | .key_off k => note_off voices k

/-- Apply a sequence of channel operations to the voice pool. -/
def apply_ops (voices : List Voice) (ops : List ChanOp) : List Voice :=
  ops.foldl apply_op voices

/-- The set of concurrently active keys determined by an operation sequence:
a note-on adds the key, a note-off or zero-velocity note-on removes it.  This
is the spec-level notion used to phrase the pool-pressure hypothesis. -/
def step_keys (ks : List Nat) : ChanOp → List Nat
  | .key_on k v => if v = 0 then ks.filter (· ≠ k) else if k ∈ ks then ks else ks ++ [k]
  | .key_off k => ks.filter (· ≠ k)

/-- Active keys after a sequence of operations, starting from none. -/
def active_keys (ops : List ChanOp) : List Nat := ops.foldl step_keys []

/-! ## Sequencer (spec-modelled clock around the src/midi.cpp tracks)

The player implementation that owns the clock is declared in src/midi.h
(player::advance_time, player::set_channel) and driven from src/main.cpp, but
its definition is absent from src/midi.cpp, which contains an earlier
revision without any timing state.  The clock and tempo bookkeeping below is
therefore modelled from the spec; the per-tick track stepping reuses the
next_division code that is present in the source. -/

/-- From src/midi.cpp line 316: (data[0] << 16) | (data[1] << 8) | data[2],
the big-endian 3-byte tempo payload. -/
def tempo_of_payload (payload : List Nat) : Nat :=
  match payload with
  | [a, b, c] => a * 65536 + b * 256 + c
  | _ => 0

/-- Modelled from the spec: the default TempoState value of
microsecondsPerQuarterNote before any Set Tempo event. -/
def default_us_per_quarter : Nat := 500000

/-- Modelled from the spec: a Set Tempo meta event (type 0x51) replaces
microsecondsPerQuarterNote with its payload value; every other event leaves
the tempo unchanged. -/
def apply_tempo_event (uspq : Nat) : Event → Nat
  | .meta ty payload => if ty = 0x51 then tempo_of_payload payload else uspq
  | _ => uspq

/-- Tempo after a list of dispatched events. -/
def apply_tempo (uspq : Nat) (evs : List Event) : Nat :=
  evs.foldl apply_tempo_event uspq

/-- Modelled from the spec: the Sequencer state — the per-track cursors of
src/midi.cpp, the PlaybackClock (currentTick, microsecondsToNextTick) and the
TempoState (microsecondsPerQuarterNote, ticksPerQuarterNote).  The player
implementation owning this state is missing from src/midi.cpp. -/
structure PlayerState where
  tracks : List TrackState
  current_tick : Nat
  us_to_next_tick : Int
  us_per_quarter : Nat
  ticks_per_quarter : Nat
deriving Repr, DecidableEq

/-- Run next_division on every track in index order, concatenating the
dispatched events; this is the inner loop of the division loop in
player::impl::impl (src/midi.cpp lines 510-516). -/
def tick_tracks : List TrackState → Except String (List TrackState × List Event)
  | [] => .ok ([], [])
  | st :: rest =>
    match next_division st with
    | .error e => .error e
    | .ok (st2, evs) =>
      match tick_tracks rest with
      | .error e => .error e
      | .ok (rest2, evs2) => .ok (st2 :: rest2, evs ++ evs2)

/-- Modelled from the spec: one tick of the sequencer — dispatch the current
division of every track in index order, increment currentTick, and add
microsecondsPerQuarterNote / ticksPerQuarterNote (integer division, with the
tempo updated by any Set Tempo event just dispatched) to
microsecondsToNextTick. -/
def tick_step (ps : PlayerState) : Except String (PlayerState × List Event) :=
  match tick_tracks ps.tracks with
  | .error e => .error e
  | .ok (tracks2, evs) =>
    let uspq2 := apply_tempo ps.us_per_quarter evs
    .ok ({ tracks := tracks2,
           current_tick := ps.current_tick + 1,
           us_to_next_tick := ps.us_to_next_tick + (uspq2 / ps.ticks_per_quarter : Nat),
           us_per_quarter := uspq2,
           ticks_per_quarter := ps.ticks_per_quarter }, evs)

/-- Modelled from the spec: the while loop of advance — perform ticks while
microsecondsToNextTick is at most zero.  The fuel bounds the iteration
count. -/
def advance_loop : Nat → PlayerState → Except String (PlayerState × List Event)
  | 0, _ => .error "out of fuel"
  | fuel + 1, ps =>
    if ps.us_to_next_tick ≤ 0 then
      match tick_step ps with
      | .error e => .error e
      | .ok (ps2, evs) =>
        match advance_loop fuel ps2 with
        | .error e => .error e
        | .ok (ps3, evs2) => .ok (ps3, evs ++ evs2)
    else .ok (ps, [])

/-- Modelled from the spec: player::advance_time with the elapsed seconds
already converted to the whole number dus of elapsed microseconds; the
conversion is subtracted from microsecondsToNextTick and ticks are performed
while that value is at most zero. -/
def advance (dus : Nat) (ps : PlayerState) : Except String (PlayerState × List Event) :=
  advance_loop (dus + 1) { ps with us_to_next_tick := ps.us_to_next_tick - dus }

/-- Modelled from the spec: a freshly loaded player — track cursors at their
start, tick zero, and the default tempo of 500000 microseconds per quarter
note. -/
def player_init (tracks : List (List Nat)) (tpq : Nat) : PlayerState :=
  { tracks := tracks.map TrackState.init,
    current_tick := 0,
    us_to_next_tick := 0,
    us_per_quarter := default_us_per_quarter,
    ticks_per_quarter := tpq }

/-- The events of a decoded track at one tick, in decode order: the pending
events whose cumulative delta-tick sum equals the tick value. -/
def events_at (L : List (Nat × Event)) (t : Nat) : List Event :=
  (L.filter (fun p => p.1 = t)).map Prod.snd

/-- The events dispatched during one tick, tracks visited in index order. -/
def tick_events (Ls : List (List (Nat × Event))) (t : Nat) : List Event :=
  (Ls.map (fun L => events_at L t)).flatten

/-- The sum of the tick increments microsecondsPerQuarterNote /
ticksPerQuarterNote charged by k consecutive ticks starting at tick t0, with
the tempo updated by the events of each tick. -/
def incs_sum (Ls : List (List (Nat × Event))) (tpq : Nat) : Nat → Nat → Nat → Nat
  | _, _, 0 => 0
  | uspq, t0, k + 1 =>
    let u1 := apply_tempo uspq (tick_events Ls t0)
    u1 / tpq + incs_sum Ls tpq u1 (t0 + 1) k

/-- The tempo in force after k consecutive ticks starting at tick t0 with
tempo uspq, the events of each tick taken from the decoded lists Ls. -/
def tempo_after (Ls : List (List (Nat × Event))) : Nat → Nat → Nat → Nat
  | uspq, _, 0 => uspq
  | uspq, t0, k + 1 => tempo_after Ls (apply_tempo uspq (tick_events Ls t0)) (t0 + 1) k

/-- The track cursor st is about to serve division t with pending
absolute-timed events L: either no delta time is buffered and the remainder
of the buffer decodes to L with times accumulated from t, or a countdown of k
divisions is buffered, the event it guards decodes at time t + k, and the
remainder follows it. -/
def sync (st : TrackState) (t : Nat) (L : List (Nat × Event)) : Prop :=
  match st.count_down with
  | none =>
    decode_track_aux st.data (st.data.length + 1) st.pos st.last_message t = .ok L
  | some k =>
    if st.data.length ≤ st.pos then L = []
    else ∃ ev pos2 lm2 rest,
      decode_event st.data st.pos st.last_message = .ok (ev, pos2, lm2) ∧
      decode_track_aux st.data (st.data.length + 1) pos2 lm2 (t + k) = .ok rest ∧
      L = (t + k, ev) :: rest

/-! ## Helper lemmas -/

theorem get_u8_ok {data : List Nat} {pos b p2 : Nat}
    (h : get_u8 data pos = .ok (b, p2)) :
    data.get? pos = some b ∧ p2 = pos + 1 ∧ pos < data.length := by
  unfold get_u8 at h
  cases hg : data.get? pos with
  | none => rw [hg] at h; cases h
  | some x =>
    rw [hg] at h
    cases h
    refine ⟨rfl, rfl, ?_⟩
    by_contra hlen
    rw [List.get?_eq_none.mpr (by omega)] at hg
    cases hg

theorem get_var_num_aux_bound {data : List Nat} :
    ∀ (fuel result pos v p2 : Nat),
      get_var_num_aux data fuel result pos = .ok (v, p2) →
      v + 1 ≤ (result + 1) * 128 ^ fuel ∧ pos < p2 ∧ p2 ≤ pos + fuel ∧ p2 ≤ data.length := by
  intro fuel
  induction fuel with
  | zero => intro result pos v p2 h; cases h
  | succ f ih =>
    intro result pos v p2 h
    unfold get_var_num_aux at h
    cases hg : get_u8 data pos with
    | error e => rw [hg] at h; cases h
    | ok cp =>
      obtain ⟨ch, pos1⟩ := cp
      rw [hg] at h
      obtain ⟨-, hpos1, hlt⟩ := get_u8_ok hg
      simp only at h
      by_cases hch : ch < 128
      · rw [if_pos hch] at h
        cases h
        have hmod : ch % 128 < 128 := Nat.mod_lt _ (by omega)
        have h128 : 128 ≤ 128 ^ (f + 1) := by
          have := Nat.one_le_two_pow (n := 7 * f)
          calc (128 : Nat) = 128 * 1 := by omega
          _ ≤ 128 * 128 ^ f := by
            exact Nat.mul_le_mul_left _ (Nat.one_le_pow _ _ (by omega))
          _ = 128 ^ (f + 1) := by rw [Nat.pow_succ, Nat.mul_comm]
        constructor
        · calc result * 128 + ch % 128 + 1 ≤ (result + 1) * 128 := by omega
          _ ≤ (result + 1) * 128 ^ (f + 1) := Nat.mul_le_mul_left _ h128
        · omega
      · rw [if_neg hch] at h
        by_cases hf : f = 0
        · rw [if_pos hf] at h; cases h
        · rw [if_neg hf] at h
          obtain ⟨hb, hlt2, hle, hlen⟩ := ih _ _ _ _ h
          refine ⟨?_, by omega, by omega, hlen⟩
          have hstep : result * 128 + ch % 128 + 1 + 1 ≤ (result + 1) * 128 + 1 := by
            have : ch % 128 < 128 := Nat.mod_lt _ (by omega)
            omega
          calc v + 1 ≤ (result * 128 + ch % 128 + 1) * 128 ^ f := hb
          _ ≤ ((result + 1) * 128) * 128 ^ f := by
            apply Nat.mul_le_mul_right
            have : ch % 128 < 128 := Nat.mod_lt _ (by omega)
            omega
          _ = (result + 1) * 128 ^ (f + 1) := by
            rw [Nat.pow_succ, Nat.mul_assoc, Nat.mul_comm (128 ^ f)]

theorem read_var_num_bound {data : List Nat} {pos v p2 : Nat}
    (h : read_var_num data pos = .ok (v, p2)) :
    v ≤ 0x0FFFFFFF ∧ pos < p2 ∧ p2 ≤ pos + 4 ∧ p2 ≤ data.length := by
  obtain ⟨hb, h1, h2, h3⟩ := get_var_num_aux_bound 4 0 pos v p2 h
  exact ⟨by norm_num at hb; omega, h1, h2, h3⟩

theorem get_var_num_aux_clear {data : List Nat} {b pos r f : Nat}
    (hb : data.get? pos = some b) (hlt : b < 128) :
    get_var_num_aux data (f + 1) r pos = .ok (r * 128 + b % 128, pos + 1) := by
  unfold get_var_num_aux get_u8
  rw [hb]
  simp [hlt]

theorem get_var_num_aux_cont {data : List Nat} {b pos r f : Nat}
    (hb : data.get? pos = some b) (hge : 128 ≤ b) (hf : f ≠ 0) :
    get_var_num_aux data (f + 1) r pos =
      get_var_num_aux data f (r * 128 + b % 128) (pos + 1) := by
  cases f with
  | zero => exact absurd rfl hf
  | succ g =>
    conv_lhs => unfold get_var_num_aux get_u8
    rw [hb]
    simp [Nat.not_lt.mpr hge]

theorem get_var_num_aux_last {data : List Nat} {b pos r : Nat}
    (hb : data.get? pos = some b) (hge : 128 ≤ b) :
    get_var_num_aux data 1 r pos = .error "MalformedVLQ" := by
  unfold get_var_num_aux get_u8
  rw [hb]
  simp [Nat.not_lt.mpr hge]

/-! ## C2 -/

/-- C2: variable-length-quantity decoding accumulates 7 bits per byte,
most significant first, while the top bit of each byte is set; it reads at
most 4 bytes and never yields more than 0x0FFFFFFF; four consecutive
continuation bytes (which would demand a fifth byte) are a fatal MalformedVLQ
error; and the six example encodings decode as the spec states. -/
theorem read_var_num_spec :
    (read_var_num [0x00] 0 = .ok (0, 1) ∧
     read_var_num [0x7F] 0 = .ok (127, 1) ∧
     read_var_num [0x87, 0x68] 0 = .ok (1000, 2) ∧
     read_var_num [0xFF, 0x7F] 0 = .ok (16383, 2) ∧
     read_var_num [0xBD, 0x84, 0x40] 0 = .ok (1000000, 3) ∧
     read_var_num [0xFF, 0xFF, 0xFF, 0x7F] 0 = .ok (0x0FFFFFFF, 4)) ∧
    (∀ (cont : List Nat) (b : Nat) (rest : List Nat),
      cont.length ≤ 3 → (∀ x ∈ cont, 128 ≤ x) → b < 128 →
      read_var_num (cont ++ b :: rest) 0 =
        .ok ((cont ++ [b]).foldl (fun a c => a * 128 + c % 128) 0, cont.length + 1)) ∧
    (∀ (data : List Nat) (pos v p2 : Nat), read_var_num data pos = .ok (v, p2) →
      v ≤ 0x0FFFFFFF ∧ p2 ≤ pos + 4) ∧
    (∀ (b0 b1 b2 b3 : Nat) (rest : List Nat),
      128 ≤ b0 → 128 ≤ b1 → 128 ≤ b2 → 128 ≤ b3 →
      read_var_num (b0 :: b1 :: b2 :: b3 :: rest) 0 = .error "MalformedVLQ") := by
  refine ⟨⟨rfl, rfl, rfl, rfl, rfl, rfl⟩, ?_, ?_, ?_⟩
  · intro cont b rest hlen hcont hb
    match cont with
    | [] =>
      rw [read_var_num, List.nil_append,
        get_var_num_aux_clear (by simp) hb]
      simp
    | [a0] =>
      have h0 : 128 ≤ a0 := hcont _ (by simp)
      rw [read_var_num, get_var_num_aux_cont (by simp) h0 (by omega),
        get_var_num_aux_clear (by simp) hb]
      simp
    | [a0, a1] =>
      have h0 : 128 ≤ a0 := hcont _ (by simp)
      have h1 : 128 ≤ a1 := hcont _ (by simp)
      rw [read_var_num, get_var_num_aux_cont (by simp) h0 (by omega),
        get_var_num_aux_cont (by simp) h1 (by omega),
        get_var_num_aux_clear (by simp) hb]
      simp
    | [a0, a1, a2] =>
      have h0 : 128 ≤ a0 := hcont _ (by simp)
      have h1 : 128 ≤ a1 := hcont _ (by simp)
      have h2 : 128 ≤ a2 := hcont _ (by simp)
      rw [read_var_num, get_var_num_aux_cont (by simp) h0 (by omega),
        get_var_num_aux_cont (by simp) h1 (by omega),
        get_var_num_aux_cont (by simp) h2 (by omega),
        get_var_num_aux_clear (by simp) hb]
      simp
    | a0 :: a1 :: a2 :: a3 :: t => simp at hlen
  · intro data pos v p2 h
    obtain ⟨h1, -, h2, -⟩ := read_var_num_bound h
    exact ⟨h1, h2⟩
  · intro b0 b1 b2 b3 rest h0 h1 h2 h3
    rw [read_var_num, get_var_num_aux_cont (by simp) h0 (by omega),
      get_var_num_aux_cont (by simp) h1 (by omega),
      get_var_num_aux_cont (by simp) h2 (by omega),
      get_var_num_aux_last (by simp) h3]

/-- Witness for C2: the general accumulation clause applied to the encoding
of 1000, and the continuation-overflow clause applied to four 0xFF bytes. -/
theorem read_var_num_spec_witness :
    read_var_num ([0x87] ++ 0x68 :: []) 0 =
      .ok (([0x87] ++ [0x68]).foldl (fun a c => a * 128 + c % 128) 0, 2) ∧
    read_var_num [0xFF, 0xFF, 0xFF, 0xFF] 0 = .error "MalformedVLQ" :=
  ⟨read_var_num_spec.2.1 [0x87] 0x68 [] (by decide) (by decide) (by decide),
   read_var_num_spec.2.2.2 0xFF 0xFF 0xFF 0xFF [] (by decide) (by decide)
     (by decide) (by decide)⟩

/-! ## C3 -/

/-- C3: during channel-voice decoding a byte with the high bit set becomes
the new running status and is consumed (decoding continues at pos + 1 with
that byte as status), while a byte with the high bit clear reuses the
previous running status with the byte itself as the first data byte
(decoding continues at pos with the old status); consequently the track
bytes delta 0, 0x90, 0x3C, 0x40, delta 10, 0x3E, 0x50 decode to exactly two
note-on events on channel 0 with keys 0x3C and 0x3E and velocities 0x40 and
0x50, at ticks 0 and 10, the second through running status. -/
theorem running_status_spec :
    (∀ (data : List Nat) (pos lm b : Nat), data.get? pos = some b → b / 16 ≠ 15 →
      (128 ≤ b → decode_event data pos lm = decode_channel_message data (pos + 1) b) ∧
      (b < 128 → decode_event data pos lm = decode_channel_message data pos lm)) ∧
    decode_track [0x00, 0x90, 0x3C, 0x40, 0x0A, 0x3E, 0x50] =
      .ok [(0, .note_on 0 (piano_key_of_midi 0x3C) 0x40),
           (10, .note_on 0 (piano_key_of_midi 0x3E) 0x50)] ∧
    run_divisions 11 (TrackState.init [0x00, 0x90, 0x3C, 0x40, 0x0A, 0x3E, 0x50]) =
      .ok (⟨[0x00, 0x90, 0x3C, 0x40, 0x0A, 0x3E, 0x50], 7, 0x90, none⟩,
           [[.note_on 0 (piano_key_of_midi 0x3C) 0x40], [], [], [], [], [], [], [], [],
            [], [.note_on 0 (piano_key_of_midi 0x3E) 0x50]]) := by
  refine ⟨?_, rfl, rfl⟩
  intro data pos lm b hget hnib
  constructor
  · intro hge
    unfold decode_event
    rw [hget]
    simp only
    rw [if_neg hnib, if_pos hge]
  · intro hlt
    unfold decode_event
    rw [hget]
    simp only
    rw [if_neg hnib, if_neg (by omega)]

/-- Witness for C3: the second note-on of the example reuses running status
0x90 at an unchanged position. -/
theorem running_status_spec_witness :
    decode_event [0x3E, 0x50] 0 0x90 = decode_channel_message [0x3E, 0x50] 0 0x90 :=
  (running_status_spec.1 [0x3E, 0x50] 0 0x90 0x3E (by rfl) (by decide)).2 (by decide)

/-! ## C4 -/

theorem get_u8_eq {data : List Nat} {pos b : Nat} (h : data.get? pos = some b) :
    get_u8 data pos = .ok (b, pos + 1) := by
  unfold get_u8
  rw [h]

/-- Counterexample to C4 as stated: a Channel Pressure message (status nibble
0xD) is not decoded by consuming one data byte and dispatching a sink call;
the decoder hits the default branch of the switch ("Unhandled midi message",
assert(false)) and fails.  Here the track bytes 0xD0 0x40 fail to decode. -/
theorem channel_pressure_unhandled :
    decode_event [0xD0, 0x40] 0 0 = .error "Unhandled midi message" := rfl

set_option maxHeartbeats 3200000 in
/-- C4 (amended): the decoder consumes exactly 2 data bytes for status
nibbles 0x8 through 0xB and exactly 1 data byte for nibble 0xC (Program
Change); for note-off, note-on and polyphonic key pressure (nibbles 0x8
through 0xA) the sink call is dispatched only when the MIDI key translates
to a valid piano key, i.e. the key byte is in 21..108, while a valid data
byte outside that range is a fatal piano_key_valid assert with no dispatch;
controller change and Program Change dispatch whenever their data bytes are
valid; statuses 0xD0 through 0xE0 (Channel Pressure and the first Pitch
Bend status) fall into the unhandled default branch and fail fatally with
"Unhandled midi message", whereas any status outside [0x80, 0xE0] -
including the remaining Pitch Bend statuses 0xE1 through 0xEF - already
fails the running-status range assert before dispatch; a data byte with its
high bit set is a fatal InvalidDataByte error. -/
theorem decode_channel_message_spec :
    (∀ (data : List Nat) (pos status b1 b2 : Nat),
      0x80 ≤ status → status ≤ 0x8F →
      data.get? pos = some b1 → data.get? (pos + 1) = some b2 →
      b1 < 128 → b2 < 128 → 21 ≤ b1 → b1 ≤ 108 →
      decode_channel_message data pos status =
        .ok (.note_off (status % 16) (piano_key_of_midi b1) b2, pos + 2, status)) ∧
    (∀ (data : List Nat) (pos status b1 b2 : Nat),
      0x90 ≤ status → status ≤ 0x9F →
      data.get? pos = some b1 → data.get? (pos + 1) = some b2 →
      b1 < 128 → b2 < 128 → 21 ≤ b1 → b1 ≤ 108 →
      decode_channel_message data pos status =
        .ok (.note_on (status % 16) (piano_key_of_midi b1) b2, pos + 2, status)) ∧
    (∀ (data : List Nat) (pos status b1 b2 : Nat),
      0xA0 ≤ status → status ≤ 0xAF →
      data.get? pos = some b1 → data.get? (pos + 1) = some b2 →
      b1 < 128 → b2 < 128 → 21 ≤ b1 → b1 ≤ 108 →
      decode_channel_message data pos status =
        .ok (.polyphonic_key_pressure (status % 16) (piano_key_of_midi b1) b2,
          pos + 2, status)) ∧
    (∀ (data : List Nat) (pos status b1 b2 : Nat),
      0x80 ≤ status → status ≤ 0xAF →
      data.get? pos = some b1 → data.get? (pos + 1) = some b2 →
      b1 < 128 → b2 < 128 → b1 < 21 ∨ 108 < b1 →
      decode_channel_message data pos status =
        .error "assert failed: piano_key_valid") ∧
    (∀ (data : List Nat) (pos status b1 b2 : Nat),
      0xB0 ≤ status → status ≤ 0xBF →
      data.get? pos = some b1 → data.get? (pos + 1) = some b2 →
      b1 < 128 → b2 < 128 →
      decode_channel_message data pos status =
        .ok (.controller_change (status % 16) b1 b2, pos + 2, status)) ∧
    (∀ (data : List Nat) (pos status b1 : Nat),
      0xC0 ≤ status → status ≤ 0xCF →
      data.get? pos = some b1 → b1 < 128 →
      decode_channel_message data pos status =
        .ok (.program_change (status % 16) b1, pos + 1, status)) ∧
    (∀ (data : List Nat) (pos status : Nat),
      0xD0 ≤ status → status ≤ 0xE0 →
      decode_channel_message data pos status = .error "Unhandled midi message") ∧
    (∀ (data : List Nat) (pos status : Nat),
      status < 0x80 ∨ 0xE0 < status →
      decode_channel_message data pos status =
        .error "assert failed: running status out of range") ∧
    (∀ (data : List Nat) (pos status b1 b2 : Nat),
      0x80 ≤ status → status ≤ 0xBF →
      data.get? pos = some b1 → data.get? (pos + 1) = some b2 →
      128 ≤ b1 ∨ 128 ≤ b2 →
      decode_channel_message data pos status = .error "InvalidDataByte") ∧
    (∀ (data : List Nat) (pos status b1 : Nat),
      0xC0 ≤ status → status ≤ 0xCF →
      data.get? pos = some b1 → 128 ≤ b1 →
      decode_channel_message data pos status = .error "InvalidDataByte") := by
  refine ⟨?_, ?_, ?_, ?_, ?_, ?_, ?_, ?_, ?_, ?_⟩
  · intro data pos status b1 b2 hs1 hs2 h1 h2 hb1 hb2 hk1 hk2
    simp only [decode_channel_message, get_u8_eq h1, get_u8_eq h2,
      piano_key_valid, piano_key_of_midi]
    split_ifs <;> first | rfl | omega
  · intro data pos status b1 b2 hs1 hs2 h1 h2 hb1 hb2 hk1 hk2
    simp only [decode_channel_message, get_u8_eq h1, get_u8_eq h2,
      piano_key_valid, piano_key_of_midi]
    split_ifs <;> first | rfl | omega
  · intro data pos status b1 b2 hs1 hs2 h1 h2 hb1 hb2 hk1 hk2
    simp only [decode_channel_message, get_u8_eq h1, get_u8_eq h2,
      piano_key_valid, piano_key_of_midi]
    split_ifs <;> first | rfl | omega
  · intro data pos status b1 b2 hs1 hs2 h1 h2 hb1 hb2 hk
    simp only [decode_channel_message, get_u8_eq h1, get_u8_eq h2,
      piano_key_valid, piano_key_of_midi]
    split_ifs <;> first | rfl | omega
  · intro data pos status b1 b2 hs1 hs2 h1 h2 hb1 hb2
    simp only [decode_channel_message, get_u8_eq h1, get_u8_eq h2]
    split_ifs <;> first | rfl | omega
  · intro data pos status b1 hs1 hs2 h1 hb1
    simp only [decode_channel_message, get_u8_eq h1]
    split_ifs <;> first | rfl | omega
  · intro data pos status hs1 hs2
    simp only [decode_channel_message]
    split_ifs <;> first | rfl | omega
  · intro data pos status hs
    unfold decode_channel_message
    rw [if_pos hs]
  · intro data pos status b1 b2 hs1 hs2 h1 h2 hb
    simp only [decode_channel_message, get_u8_eq h1, get_u8_eq h2,
      piano_key_valid, piano_key_of_midi]
    split_ifs <;> first | rfl | omega
  · intro data pos status b1 hs1 hs2 h1 hb
    simp only [decode_channel_message, get_u8_eq h1]
    split_ifs <;> first | rfl | omega

/-- Witness for C4 (amended): a Program Change and a two-byte note-on decode
with the stated byte counts, a note-on with a valid data byte below MIDI key
21 fails the piano_key_valid assert, status 0xD0 is unhandled, and explicit
Pitch Bend status 0xE5 fails the running-status range assert. -/
theorem decode_channel_message_spec_witness :
    decode_channel_message [0x05] 0 0xC3 = .ok (.program_change 3 0x05, 1, 0xC3) ∧
    decode_channel_message [0x3C, 0x40] 0 0x90 =
      .ok (.note_on 0 (piano_key_of_midi 0x3C) 0x40, 2, 0x90) ∧
    decode_channel_message [0x05, 0x40] 0 0x90 =
      .error "assert failed: piano_key_valid" ∧
    decode_channel_message [0x40] 0 0xD0 = .error "Unhandled midi message" ∧
    decode_channel_message [0x40] 0 0xE5 =
      .error "assert failed: running status out of range" :=
  ⟨decode_channel_message_spec.2.2.2.2.2.1 [0x05] 0 0xC3 0x05 (by decide) (by decide)
      (by rfl) (by decide),
   decode_channel_message_spec.2.1 [0x3C, 0x40] 0 0x90 0x3C 0x40 (by decide) (by decide)
      (by rfl) (by rfl) (by decide) (by decide) (by decide) (by decide),
   decode_channel_message_spec.2.2.2.1 [0x05, 0x40] 0 0x90 0x05 0x40 (by decide)
      (by decide) (by rfl) (by rfl) (by decide) (by decide) (by decide),
   decode_channel_message_spec.2.2.2.2.2.2.1 [0x40] 0 0xD0 (by decide) (by decide),
   decode_channel_message_spec.2.2.2.2.2.2.2.1 [0x40] 0 0xE5 (by decide)⟩

/-! ## C5 -/

/-- Counterexample to C5 as stated: a header whose division field has the top
bit set (SMPTE mode, division 0x8000) is not rejected; the constructor never
examines the division bit, and loading succeeds and reads the track chunk. -/
theorem smpte_division_not_rejected :
    player_load [0x4D, 0x54, 0x68, 0x64, 0, 0, 0, 6, 0, 1, 0, 1, 0x80, 0x00,
        0x4D, 0x54, 0x72, 0x6B, 0, 0, 0, 4, 0x00, 0xFF, 0x2F, 0x00] =
      .ok (0x8000, [[0x00, 0xFF, 0x2F, 0x00]]) := rfl

/-- C5 (amended): loading fails fatally when the header chunk tag is not MThd
or its length is not 6, and when the format field is not 1; the division
field is read but never validated (no SMPTE check), and when the checks pass
loading proceeds to read the track chunks. -/
theorem load_header_spec :
    (∀ (a0 a1 a2 a3 l0 l1 l2 l3 f1 f2 t1 t2 d1 d2 : Nat) (rest : List Nat),
      pack_u32 a0 a1 a2 a3 ≠ header_chunk_type ∨ pack_u32 l0 l1 l2 l3 ≠ 6 →
      load_header (a0 :: a1 :: a2 :: a3 :: l0 :: l1 :: l2 :: l3 ::
          f1 :: f2 :: t1 :: t2 :: d1 :: d2 :: rest) = .error "Invalid MIDI header") ∧
    (∀ (a0 a1 a2 a3 l0 l1 l2 l3 f1 f2 t1 t2 d1 d2 : Nat) (rest : List Nat),
      pack_u32 a0 a1 a2 a3 = header_chunk_type → pack_u32 l0 l1 l2 l3 = 6 →
      pack_u16 f1 f2 ≠ 1 →
      load_header (a0 :: a1 :: a2 :: a3 :: l0 :: l1 :: l2 :: l3 ::
          f1 :: f2 :: t1 :: t2 :: d1 :: d2 :: rest) = .error "Unsupported MIDI format") ∧
    (∀ (a0 a1 a2 a3 l0 l1 l2 l3 f1 f2 t1 t2 d1 d2 : Nat) (rest : List Nat),
      pack_u32 a0 a1 a2 a3 = header_chunk_type → pack_u32 l0 l1 l2 l3 = 6 →
      pack_u16 f1 f2 = 1 →
      load_header (a0 :: a1 :: a2 :: a3 :: l0 :: l1 :: l2 :: l3 ::
          f1 :: f2 :: t1 :: t2 :: d1 :: d2 :: rest) =
        .ok (1, pack_u16 t1 t2, pack_u16 d1 d2, rest)) ∧
    (∀ (bytes : List Nat) (fmt trk div : Nat) (rest : List Nat),
      load_header bytes = .ok (fmt, trk, div, rest) →
      player_load bytes =
        match load_tracks (if trk < 0x8000 then trk else 0) rest with
        | .error e => .error e
        | .ok ts => .ok (div, ts)) := by
  refine ⟨?_, ?_, ?_, ?_⟩
  · intro a0 a1 a2 a3 l0 l1 l2 l3 f1 f2 t1 t2 d1 d2 rest hbad
    simp only [load_header, read_chunk_header]
    rw [if_pos hbad]
  · intro a0 a1 a2 a3 l0 l1 l2 l3 f1 f2 t1 t2 d1 d2 rest htag hlen hfmt
    simp only [load_header, read_chunk_header]
    rw [if_neg (by simp [htag, hlen])]
    rw [if_pos hfmt]
  · intro a0 a1 a2 a3 l0 l1 l2 l3 f1 f2 t1 t2 d1 d2 rest htag hlen hfmt
    simp only [load_header, read_chunk_header]
    rw [if_neg (by simp [htag, hlen])]
    rw [if_neg (by simp [hfmt]), hfmt]
  · intro bytes fmt trk div rest hload
    simp only [player_load, hload]

/-- Witness for C5 (amended): a format-2 file is rejected, a format-1 file
with SMPTE division 0x8000 passes the header checks, and loading then
proceeds to the track chunks. -/
theorem load_header_spec_witness :
    load_header [0x4D, 0x54, 0x68, 0x64, 0, 0, 0, 6, 0, 2, 0, 1, 0, 96] =
      .error "Unsupported MIDI format" ∧
    load_header [0x4D, 0x54, 0x68, 0x64, 0, 0, 0, 6, 0, 1, 0, 1, 0x80, 0x00] =
      .ok (1, pack_u16 0 1, pack_u16 0x80 0x00, []) ∧
    player_load [0x4D, 0x54, 0x68, 0x64, 0, 0, 0, 6, 0, 1, 0, 0, 0, 96] =
      match load_tracks (if (0 : Nat) < 0x8000 then 0 else 0) [] with
      | .error e => .error e
      | .ok ts => .ok ((96 : Nat), ts) :=
  ⟨load_header_spec.2.1 0x4D 0x54 0x68 0x64 0 0 0 6 0 2 0 1 0 96 [] (by decide)
      (by decide) (by decide),
   load_header_spec.2.2.1 0x4D 0x54 0x68 0x64 0 0 0 6 0 1 0 1 0x80 0x00 [] (by decide)
      (by decide) (by decide),
   load_header_spec.2.2.2 [0x4D, 0x54, 0x68, 0x64, 0, 0, 0, 6, 0, 1, 0, 0, 0, 96]
      1 0 96 [] (by rfl)⟩

/-! ## C6 -/

/-- Counterexample to C6 as stated: the informational text type 0x01 is not
among the recognized cases; the default branch prints a diagnostic and then
hits assert(false), so decoding a type 0x01 meta event fails fatally instead
of skipping the payload and continuing. -/
theorem meta_text_event_fatal :
    do_meta_event 0x01 [] = .error "assert failed: unrecognized meta event type" := rfl

/-- C6 (amended): decoding a meta event fails fatally if and only if either
its type is one of the recognized length-checked types 0x2F, 0x51, 0x58,
0x59 and the payload length differs from the required 0, 3, 4 or 2 bytes, or
its type is not among the handled types 0x02, 0x03, 0x2F, 0x51, 0x58, 0x59
(the default branch asserts false, so 0x01 and every other unrecognized type
is fatal); for types 0x02 and 0x03 the payload is printed and decoding
continues with the next event. -/
theorem do_meta_event_spec :
    (∀ (type : Nat) (payload : List Nat),
      (∃ e, do_meta_event type payload = .error e) ↔
        ¬ (type = 0x02 ∨ type = 0x03 ∨
           (type = 0x2F ∧ payload.length = 0) ∨ (type = 0x51 ∧ payload.length = 3) ∨
           (type = 0x58 ∧ payload.length = 4) ∨ (type = 0x59 ∧ payload.length = 2))) ∧
    decode_track [0x00, 0xFF, 0x02, 0x03, 0x41, 0x42, 0x43, 0x00, 0x90, 0x3C, 0x40] =
      .ok [(0, .meta 0x02 [0x41, 0x42, 0x43]),
           (0, .note_on 0 (piano_key_of_midi 0x3C) 0x40)] := by
  refine ⟨?_, rfl⟩
  intro type payload
  unfold do_meta_event
  split_ifs <;> simp_all

/-- Witness for C6 (amended): a Set Tempo meta event with a 2-byte payload is
fatal, and an End of Track with empty payload is not. -/
theorem do_meta_event_spec_witness :
    (∃ e, do_meta_event 0x51 [1, 2] = .error e) ∧
    ¬ (∃ e, do_meta_event 0x2F [] = .error e) :=
  ⟨(do_meta_event_spec.1 0x51 [1, 2]).mpr (by decide),
   fun h => by
    have := (do_meta_event_spec.1 0x2F []).mp h
    simp at this⟩

/-! ## Voice pool helper lemmas -/

theorem find_index_some {p : Voice → Bool} :
    ∀ {l : List Voice} {i : Nat}, find_index p l = some i →
      ∃ v, l.get? i = some v ∧ p v = true ∧
        ∀ j vj, l.get? j = some vj → p vj = true → i ≤ j := by
  intro l
  induction l with
  | nil => intro i h; cases h
  | cons v rest ih =>
    intro i h
    unfold find_index at h
    by_cases hp : p v
    · rw [if_pos hp] at h
      cases h
      exact ⟨v, rfl, hp, fun j vj _ _ => Nat.zero_le _⟩
    · rw [if_neg hp] at h
      cases hfr : find_index p rest with
      | none => rw [hfr] at h; cases h
      | some i2 =>
        rw [hfr] at h
        have hi : i = i2 + 1 := by simpa using h.symm
        subst hi
        obtain ⟨w, hw, hpw, hmin⟩ := ih hfr
        refine ⟨w, hw, hpw, ?_⟩
        intro j vj hj hpj
        cases j with
        | zero =>
          simp only [List.get?] at hj
          cases hj
          exact absurd hpj (by simp [hp])
        | succ j2 =>
          simp only [List.get?] at hj
          have := hmin j2 vj hj hpj
          omega

theorem find_index_none {p : Voice → Bool} :
    ∀ {l : List Voice}, find_index p l = none → ∀ v ∈ l, p v = false := by
  intro l
  induction l with
  | nil => intro _ v hv; cases hv
  | cons v rest ih =>
    intro h w hw
    unfold find_index at h
    by_cases hp : p v
    · rw [if_pos hp] at h; cases h
    · rw [if_neg hp] at h
      rcases List.mem_cons.mp hw with rfl | hw2
      · exact Bool.eq_false_iff.mpr hp
      · cases hfr : find_index p rest with
        | none => exact ih hfr w hw2
        | some i2 => rw [hfr] at h; cases h

theorem find_index_is_some {p : Voice → Bool} :
    ∀ {l : List Voice} {v : Voice}, v ∈ l → p v = true →
      ∃ i, find_index p l = some i := by
  intro l
  induction l with
  | nil => intro v hv; cases hv
  | cons w rest ih =>
    intro v hv hp
    unfold find_index
    by_cases hw : p w
    · exact ⟨0, by rw [if_pos hw]⟩
    · rcases List.mem_cons.mp hv with rfl | hv2
      · exact absurd hp (by simp [hw])
      · obtain ⟨i, hi⟩ := ih hv2 hp
        exact ⟨i + 1, by rw [if_neg hw, hi]; rfl⟩

theorem update_voice_length (f : Voice → Voice) :
    ∀ (l : List Voice) (i : Nat), (update_voice l i f).length = l.length := by
  intro l
  induction l with
  | nil => intro i; rfl
  | cons v rest ih =>
    intro i
    cases i with
    | zero => rfl
    | succ i2 => simpa [update_voice] using ih i2

theorem update_voice_get?_eq (f : Voice → Voice) :
    ∀ (l : List Voice) (i : Nat),
      (update_voice l i f).get? i = (l.get? i).map f := by
  intro l
  induction l with
  | nil => intro i; rfl
  | cons v rest ih =>
    intro i
    cases i with
    | zero => rfl
    | succ i2 => simpa [update_voice] using ih i2

theorem update_voice_get?_ne (f : Voice → Voice) :
    ∀ (l : List Voice) (i j : Nat), j ≠ i →
      (update_voice l i f).get? j = l.get? j := by
  intro l
  induction l with
  | nil => intro i j _; rfl
  | cons v rest ih =>
    intro i j hne
    cases i with
    | zero =>
      cases j with
      | zero => exact absurd rfl hne
      | succ j2 => rfl
    | succ i2 =>
      cases j with
      | zero => rfl
      | succ j2 => simpa [update_voice] using ih i2 j2 (by omega)

theorem max_element_aux_spec :
    ∀ (l : List Voice) (bi : Nat) (bv : Voice) (i : Nat),
      (max_element_aux bi bv i l = bi ∧
        ∀ v ∈ l, v.samples_played ≤ bv.samples_played) ∨
      (∃ k vk, l.get? k = some vk ∧ max_element_aux bi bv i l = i + k ∧
        bv.samples_played < vk.samples_played ∧
        (∀ v ∈ l, v.samples_played ≤ vk.samples_played) ∧
        (∀ m vm, m < k → l.get? m = some vm →
          vm.samples_played < vk.samples_played)) := by
  intro l
  induction l with
  | nil => intro bi bv i; left; exact ⟨rfl, by simp⟩
  | cons v rest ih =>
    intro bi bv i
    by_cases hc : compare_samples_played bv v
    · have hlt : bv.samples_played < v.samples_played := by
        simpa [compare_samples_played] using hc
      have hstep : max_element_aux bi bv i (v :: rest) = max_element_aux i v (i + 1) rest := by
        simp [max_element_aux, hc]
      rcases ih i v (i + 1) with ⟨heq, hball⟩ | ⟨k, vk, hget, heq, hbv, hall, hpre⟩
      · right
        refine ⟨0, v, rfl, by omega, hlt, ?_, by omega⟩
        intro w hw
        rcases List.mem_cons.mp hw with rfl | hw2
        · omega
        · exact hball w hw2
      · right
        refine ⟨k + 1, vk, hget, by rw [hstep, heq]; omega, by omega, ?_, ?_⟩
        · intro w hw
          rcases List.mem_cons.mp hw with rfl | hw2
          · omega
          · exact hall w hw2
        · intro m vm hm hgm
          cases m with
          | zero =>
            simp only [List.get?] at hgm
            cases hgm
            omega
          | succ m2 =>
            simp only [List.get?] at hgm
            exact hpre m2 vm (by omega) hgm
    · have hle : v.samples_played ≤ bv.samples_played := by
        simpa [compare_samples_played] using hc
      have hstep : max_element_aux bi bv i (v :: rest) = max_element_aux bi bv (i + 1) rest := by
        simp [max_element_aux, hc]
      rcases ih bi bv (i + 1) with ⟨heq, hball⟩ | ⟨k, vk, hget, heq, hbv, hall, hpre⟩
      · left
        refine ⟨by rw [hstep, heq], ?_⟩
        intro w hw
        rcases List.mem_cons.mp hw with rfl | hw2
        · exact hle
        · exact hball w hw2
      · right
        refine ⟨k + 1, vk, hget, by rw [hstep, heq]; omega, hbv, ?_, ?_⟩
        · intro w hw
          rcases List.mem_cons.mp hw with rfl | hw2
          · omega
          · exact hall w hw2
        · intro m vm hm hgm
          cases m with
          | zero =>
            simp only [List.get?] at hgm
            cases hgm
            omega
          | succ m2 =>
            simp only [List.get?] at hgm
            exact hpre m2 vm (by omega) hgm

theorem max_element_idx_spec (l : List Voice) (hne : l ≠ []) :
    ∃ vm, l.get? (max_element_idx l) = some vm ∧
      (∀ v ∈ l, v.samples_played ≤ vm.samples_played) ∧
      (∀ j vj, j < max_element_idx l → l.get? j = some vj →
        vj.samples_played < vm.samples_played) := by
  cases l with
  | nil => exact absurd rfl hne
  | cons v rest =>
    have hidx : max_element_idx (v :: rest) = max_element_aux 0 v 1 rest := rfl
    rcases max_element_aux_spec rest 0 v 1 with ⟨heq, hball⟩ | ⟨k, vk, hget, heq, hbv, hall, hpre⟩
    · refine ⟨v, by rw [hidx, heq]; rfl, ?_, ?_⟩
      · intro w hw
        rcases List.mem_cons.mp hw with rfl | hw2
        · omega
        · exact hball w hw2
      · intro j vj hj _
        rw [hidx, heq] at hj
        omega
    · refine ⟨vk, ?_, ?_, ?_⟩
      · rw [hidx, heq, Nat.add_comm 1 k]
        simpa using hget
      · intro w hw
        rcases List.mem_cons.mp hw with rfl | hw2
        · omega
        · exact hall w hw2
      · intro j vj hj hgj
        rw [hidx, heq] at hj
        cases j with
        | zero =>
          simp only [List.get?] at hgj
          cases hgj
          omega
        | succ j2 =>
          simp only [List.get?] at hgj
          exact hpre j2 vj (by omega) hgj

/-! ## C8 -/

/-- C8: a note-on with velocity 0 is treated as a note-off for the key;
otherwise the updated voice index i satisfies: if some voice is already bound
to the key it is the first such voice (retriggered in place); else, in any
reachable pool (where an unbound voice has an off envelope), it is the first
voice whose envelope is off; else it is the voice with the greatest
samples_played, ties broken by lowest pool index — allocation always
succeeds; and with pool size 1, note-on of key 40 followed by note-on of key
42 leaves exactly one active voice, bound to key 42. -/
theorem note_on_spec :
    (∀ (voices : List Voice) (key : Nat),
      note_on voices key 0 = note_off voices key) ∧
    (∀ (voices : List Voice) (key vel : Nat), vel ≠ 0 →
      (∀ v ∈ voices, v.key = 0 → v.env = .off) →
      voices ≠ [] →
      ∃ i vi, voices.get? i = some vi ∧
        note_on voices key vel = update_voice voices i (fun v => v.key_on key vel) ∧
        ((∃ v ∈ voices, v.key = key) →
          vi.key = key ∧ ∀ j vj, voices.get? j = some vj → vj.key = key → i ≤ j) ∧
        ((∀ v ∈ voices, v.key ≠ key) → (∃ v ∈ voices, v.env = .off) →
          vi.env = .off ∧ ∀ j vj, voices.get? j = some vj → vj.env = .off → i ≤ j) ∧
        ((∀ v ∈ voices, v.key ≠ key) → (∀ v ∈ voices, v.env ≠ .off) →
          (∀ v ∈ voices, v.samples_played ≤ vi.samples_played) ∧
          ∀ j vj, voices.get? j = some vj → j < i →
            vj.samples_played < vi.samples_played)) ∧
    ((note_on (note_on [Voice.init] 40 64) 42 64).countP Voice.active = 1 ∧
     (note_on (note_on [Voice.init] 40 64) 42 64).map Voice.key = [42]) := by
  refine ⟨fun voices key => by simp [note_on], ?_, by decide, by decide⟩
  intro voices key vel hvel H hne
  have hstep : note_on voices key vel =
      update_voice voices (alloc_index voices key) (fun v => v.key_on key vel) := by
    simp [note_on, hvel]
  cases hfk : find_key voices key with
  | some i =>
    obtain ⟨vi, hget, hp, hmin⟩ := find_index_some hfk
    have hkey : vi.key = key := by simpa using hp
    refine ⟨i, vi, hget, by rw [hstep, alloc_index, hfk], ?_, ?_, ?_⟩
    · intro _
      refine ⟨hkey, ?_⟩
      intro j vj hj hkj
      exact hmin j vj hj (by simpa using hkj)
    · intro hno _
      exact absurd hkey (hno vi (List.get?_mem hget))
    · intro hno _
      exact absurd hkey (hno vi (List.get?_mem hget))
  | none =>
    have hnokey : ∀ v ∈ voices, v.key ≠ key := by
      intro v hv
      have := find_index_none hfk v hv
      simpa using this
    cases hfi : find_index (fun v => !v.active) voices with
    | some j =>
      obtain ⟨vj, hget, hp, hmin⟩ := find_index_some hfi
      have hoff : vj.env = .off := by
        have hina : ¬ (vj.key ≠ 0 ∧ vj.env ≠ EnvState.off) := by
          intro hc
          simp [Voice.active, hc.1, hc.2] at hp
        by_cases hk0 : vj.key = 0
        · exact H vj (List.get?_mem hget) hk0
        · push_neg at hina
          exact hina hk0
      refine ⟨j, vj, hget, by rw [hstep, alloc_index, hfk, hfi], ?_, ?_, ?_⟩
      · intro ⟨v, hv, hkv⟩
        exact absurd hkv (hnokey v hv)
      · intro _ _
        refine ⟨hoff, ?_⟩
        intro j2 vj2 hj2 hoff2
        exact hmin j2 vj2 hj2 (by simp [Voice.active, hoff2])
      · intro _ hnooff
        exact absurd hoff (hnooff vj (List.get?_mem hget))
    | none =>
      have hact : ∀ v ∈ voices, v.env ≠ .off := by
        intro v hv hoff
        have hfalse := find_index_none hfi v hv
        simp [Voice.active, hoff] at hfalse
      obtain ⟨vm, hget, hall, hpre⟩ := max_element_idx_spec voices hne
      refine ⟨max_element_idx voices, vm, hget,
        by rw [hstep, alloc_index, hfk, hfi], ?_, ?_, ?_⟩
      · intro ⟨v, hv, hkv⟩
        exact absurd hkv (hnokey v hv)
      · intro _ ⟨v, hv, hoffv⟩
        exact absurd hoffv (hact v hv)
      · intro _ _
        exact ⟨hall, fun j vj hj hlt => hpre j vj hlt hj⟩

/-- Witness for C8: the allocation clause applied to a one-voice pool and a
nonzero velocity. -/
theorem note_on_spec_witness :
    ∃ i vi, [Voice.init].get? i = some vi ∧
      note_on [Voice.init] 40 64 = update_voice [Voice.init] i (fun v => v.key_on 40 64) ∧
      ((∃ v ∈ [Voice.init], v.key = 40) →
        vi.key = 40 ∧ ∀ j vj, [Voice.init].get? j = some vj → vj.key = 40 → i ≤ j) ∧
      ((∀ v ∈ [Voice.init], v.key ≠ 40) → (∃ v ∈ [Voice.init], v.env = .off) →
        vi.env = .off ∧ ∀ j vj, [Voice.init].get? j = some vj → vj.env = .off → i ≤ j) ∧
      ((∀ v ∈ [Voice.init], v.key ≠ 40) → (∀ v ∈ [Voice.init], v.env ≠ .off) →
        (∀ v ∈ [Voice.init], v.samples_played ≤ vi.samples_played) ∧
        ∀ j vj, [Voice.init].get? j = some vj → j < i →
          vj.samples_played < vi.samples_played) :=
  note_on_spec.2.1 [Voice.init] 40 64 (by decide) (by decide) (by decide)

/-! ## C9 -/

/-- Counterexample to C9 as stated: the operation sequence note-on 40,
note-on 42, note-off 42, note-on 44 on a pool of size 2 keeps the concurrent
active key count at or below 2 at every prefix, yet afterwards the active key
40 is bound to no voice at all: the fourth note-on found no inactive voice
(the released voice for key 42 is still sounding) and stole the voice holding
the still-active key 40. -/
theorem active_key_unbound :
    ((List.range 5).all (fun m =>
      (active_keys ([ChanOp.key_on 40 64, ChanOp.key_on 42 64, ChanOp.key_off 42,
        ChanOp.key_on 44 64].take m)).length ≤ 2)) = true ∧
    active_keys [ChanOp.key_on 40 64, ChanOp.key_on 42 64, ChanOp.key_off 42, ChanOp.key_on 44 64] =
      [40, 44] ∧
    (apply_ops (List.replicate 2 Voice.init)
      [ChanOp.key_on 40 64, ChanOp.key_on 42 64, ChanOp.key_off 42, ChanOp.key_on 44 64]).countP
        (fun v => v.key == 40) = 0 := by
  decide

/-- C9 (amended): for every sequence of note-on and note-off operations whose
concurrent active key count stays at or below the pool size, no two voices
are ever simultaneously bound to the same key (each key is bound to at most
one voice); an active key may however lose its voice to stealing, so it need
not remain bound to exactly one voice. -/
theorem voice_pool_key_unique (n : Nat) (ops : List ChanOp)
    (hcap : ∀ m, (active_keys (ops.take m)).length ≤ n) :
    ∀ i j vi vj,
      (apply_ops (List.replicate n Voice.init) ops).get? i = some vi →
      (apply_ops (List.replicate n Voice.init) ops).get? j = some vj →
      vi.key ≠ 0 → vi.key = vj.key → i = j := by
  clear hcap
  have base : ∀ i j (vi vj : Voice),
      (List.replicate n Voice.init).get? i = some vi →
      (List.replicate n Voice.init).get? j = some vj →
      vi.key ≠ 0 → vi.key = vj.key → i = j := by
    intro i j vi vj hi hj hk _
    have : vi = Voice.init := by
      have := List.get?_mem hi
      simpa using List.eq_of_mem_replicate this
    rw [this] at hk
    exact absurd rfl hk
  generalize hv : List.replicate n Voice.init = voices at base ⊢
  clear hv
  induction ops generalizing voices with
  | nil => exact base
  | cons op rest ih =>
    have hstep : apply_ops voices (op :: rest) = apply_ops (apply_op voices op) rest := rfl
    rw [hstep]
    apply ih
    -- the invariant is preserved by one operation
    have hoffcase : ∀ (key : Nat), ∀ i j (vi vj : Voice),
        (note_off voices key).get? i = some vi →
        (note_off voices key).get? j = some vj →
        vi.key ≠ 0 → vi.key = vj.key → i = j := by
      intro key i j vi vj hi hj hk hkk
      unfold note_off at hi hj
      cases hfk : find_key voices key with
      | none =>
        rw [hfk] at hi hj
        exact base i j vi vj hi hj hk hkk
      | some m =>
        rw [hfk] at hi hj
        by_cases him : i = m
        · subst him
          rw [update_voice_get?_eq] at hi
          cases hoi : voices.get? i with
          | none => rw [hoi] at hi; cases hi
          | some wi =>
            rw [hoi] at hi
            cases hi
            by_cases hjm : j = i
            · omega
            · rw [update_voice_get?_ne _ _ _ _ hjm] at hj
              exact base i j wi vj hoi hj (by simpa [Voice.key_off] using hk)
                (by simpa [Voice.key_off] using hkk)
        · rw [update_voice_get?_ne _ _ _ _ him] at hi
          by_cases hjm : j = m
          · subst hjm
            rw [update_voice_get?_eq] at hj
            cases hoj : voices.get? j with
            | none => rw [hoj] at hj; cases hj
            | some wj =>
              rw [hoj] at hj
              cases hj
              exact base i j vi wj hi hoj hk (by simpa [Voice.key_off] using hkk)
          · rw [update_voice_get?_ne _ _ _ _ hjm] at hj
            exact base i j vi vj hi hj hk hkk
    cases op with
    | key_off key => exact hoffcase key
    | key_on key vel =>
      by_cases hvel : vel = 0
      · subst hvel
        intro i j vi vj hi hj hk hkk
        rw [show apply_op voices (ChanOp.key_on key 0) = note_off voices key by
          simp [apply_op, note_on]] at hi hj
        exact hoffcase key i j vi vj hi hj hk hkk
      · intro i j vi vj hi hj hk hkk
        rw [show apply_op voices (ChanOp.key_on key vel) =
            update_voice voices (alloc_index voices key) (fun v => v.key_on key vel) by
          simp [apply_op, note_on, hvel]] at hi hj
        set m := alloc_index voices key with hm
        have hnodup : key ≠ 0 → ∀ (b : Nat) (vb : Voice), b ≠ m →
            voices.get? b = some vb → vb.key ≠ key := by
          intro hk0 b vb hbm hb hkb
          cases hfk : find_key voices key with
          | none =>
            have := find_index_none hfk vb (List.get?_mem hb)
            simp [hkb] at this
          | some m2 =>
            have hm2 : m = m2 := by rw [hm]; simp [alloc_index, hfk]
            obtain ⟨w, hw, hpw, -⟩ := find_index_some hfk
            have hwkey : w.key = key := by simpa using hpw
            have : b = m2 := base b m2 vb w hb hw (by rw [hkb]; exact hk0)
              (by rw [hkb, hwkey])
            omega
        by_cases him : i = m
        · by_cases hjm : j = m
          · omega
          · exfalso
            subst him
            rw [update_voice_get?_eq] at hi
            cases hoi : voices.get? m with
            | none => rw [hoi] at hi; cases hi
            | some wi =>
              rw [hoi] at hi
              cases hi
              rw [update_voice_get?_ne _ _ _ _ hjm] at hj
              have hk0 : key ≠ 0 := by simpa [Voice.key_on] using hk
              have hjk : vj.key = key := by simpa [Voice.key_on] using hkk.symm
              exact hnodup hk0 j vj hjm hj hjk
        · rw [update_voice_get?_ne _ _ _ _ him] at hi
          by_cases hjm : j = m
          · exfalso
            subst hjm
            rw [update_voice_get?_eq] at hj
            cases hoj : voices.get? m with
            | none => rw [hoj] at hj; cases hj
            | some wj =>
              rw [hoj] at hj
              cases hj
              have hik : vi.key = key := by simpa [Voice.key_on] using hkk
              exact hnodup (by rw [hik] at hk; exact hk) i vi him hi hik
          · rw [update_voice_get?_ne _ _ _ _ hjm] at hj
            exact base i j vi vj hi hj hk hkk

/-- Witness for C9 (amended): the uniqueness conclusion at a concrete pool
and operation list whose prefixes respect the capacity bound. -/
theorem voice_pool_key_unique_witness : (0 : Nat) = 0 :=
  voice_pool_key_unique 2 [ChanOp.key_on 40 64]
    (by
      intro m
      rcases m with - | m <;> simp [active_keys, step_keys])
    0 0 ⟨40, 64, .attack, 0⟩ ⟨40, 64, .attack, 0⟩ (by decide) (by decide)
    (by decide) rfl

/-! ## C10 -/

/-- C10: For every integer value of the truncated float input, float_to_short
lies within the 16-bit range, clamps below the minimum to -32768 and above
the maximum to 32767, and is the identity inside the range — it saturates
instead of wrapping. -/
theorem float_to_short_saturates (i : Int) :
    -32768 ≤ float_to_short i ∧ float_to_short i ≤ 32767 ∧
      float_to_short i = max (-32768) (min 32767 i) := by
  unfold float_to_short
  rcases lt_trichotomy i (-32768) with h | h | h <;>
    simp [Int.max_def, Int.min_def] <;> split_ifs <;> omega

/-! ## Sequencer helper lemmas -/

theorem decode_channel_message_progress {data : List Nat} {pos status : Nat}
    {ev : Event} {pos2 lm2 : Nat}
    (h : decode_channel_message data pos status = .ok (ev, pos2, lm2)) :
    pos < pos2 ∧ pos2 ≤ data.length := by
  unfold decode_channel_message at h
  by_cases h1 : status < 128 ∨ 224 < status
  · rw [if_pos h1] at h; simp at h
  rw [if_neg h1] at h
  by_cases hc1 : status / 16 ≤ 10
  · rw [if_pos hc1] at h
    cases hg1 : get_u8 data pos with
    | error e => rw [hg1] at h; simp at h
    | ok p1 =>
      obtain ⟨b1, q1⟩ := p1
      rw [hg1] at h
      dsimp only at h
      cases hg2 : get_u8 data q1 with
      | error e => rw [hg2] at h; simp at h
      | ok p2 =>
        obtain ⟨b2, q2⟩ := p2
        rw [hg2] at h
        dsimp only at h
        obtain ⟨-, hq1, hl1⟩ := get_u8_ok hg1
        obtain ⟨-, hq2, hl2⟩ := get_u8_ok hg2
        split_ifs at h <;> (cases h; omega)
  rw [if_neg hc1] at h
  by_cases hc2 : status / 16 = 11
  · rw [if_pos hc2] at h
    cases hg1 : get_u8 data pos with
    | error e => rw [hg1] at h; simp at h
    | ok p1 =>
      obtain ⟨b1, q1⟩ := p1
      rw [hg1] at h
      dsimp only at h
      cases hg2 : get_u8 data q1 with
      | error e => rw [hg2] at h; simp at h
      | ok p2 =>
        obtain ⟨b2, q2⟩ := p2
        rw [hg2] at h
        dsimp only at h
        obtain ⟨-, hq1, hl1⟩ := get_u8_ok hg1
        obtain ⟨-, hq2, hl2⟩ := get_u8_ok hg2
        split_ifs at h <;> (cases h; omega)
  rw [if_neg hc2] at h
  by_cases hc3 : status / 16 = 12
  · rw [if_pos hc3] at h
    cases hg1 : get_u8 data pos with
    | error e => rw [hg1] at h; simp at h
    | ok p1 =>
      obtain ⟨b1, q1⟩ := p1
      rw [hg1] at h
      dsimp only at h
      obtain ⟨-, hq1, hl1⟩ := get_u8_ok hg1
      split_ifs at h <;> (cases h; omega)
  · rw [if_neg hc3] at h
    simp at h

theorem decode_event_progress {data : List Nat} {pos lm : Nat} {ev : Event}
    {pos2 lm2 : Nat} (h : decode_event data pos lm = .ok (ev, pos2, lm2)) :
    pos < pos2 ∧ pos2 ≤ data.length := by
  unfold decode_event at h
  cases hg : data.get? pos with
  | none => rw [hg] at h; simp at h
  | some command =>
    rw [hg] at h
    dsimp only at h
    by_cases hf : command / 16 = 15
    · rw [if_pos hf] at h
      by_cases hff : command = 0xFF
      · rw [if_pos hff] at h
        cases hg1 : get_u8 data (pos + 1) with
        | error e => rw [hg1] at h; simp at h
        | ok p1 =>
          obtain ⟨mtype, q1⟩ := p1
          rw [hg1] at h
          dsimp only at h
          by_cases hmt : 0x80 ≤ mtype
          · rw [if_pos hmt] at h; simp at h
          rw [if_neg hmt] at h
          cases hv : read_var_num data q1 with
          | error e => rw [hv] at h; simp at h
          | ok p2 =>
            obtain ⟨mlen, q2⟩ := p2
            rw [hv] at h
            dsimp only at h
            by_cases hlen : data.length < q2 + mlen
            · rw [if_pos hlen] at h; simp at h
            rw [if_neg hlen] at h
            cases hm : do_meta_event mtype ((data.drop q2).take mlen) with
            | error e => rw [hm] at h; simp at h
            | ok u =>
              rw [hm] at h
              cases h
              obtain ⟨-, hq1, -⟩ := get_u8_ok hg1
              obtain ⟨-, ha, -, hb⟩ := read_var_num_bound hv
              omega
      · rw [if_neg hff] at h; simp at h
    · rw [if_neg hf] at h
      by_cases hcs : 128 ≤ command
      · rw [if_pos hcs] at h
        have := decode_channel_message_progress h
        omega
      · rw [if_neg hcs] at h
        have := decode_channel_message_progress h
        omega

theorem decode_track_aux_times {data : List Nat} :
    ∀ (fuel pos lm t : Nat) (L : List (Nat × Event)),
      decode_track_aux data fuel pos lm t = .ok L → ∀ p ∈ L, t ≤ p.1 := by
  intro fuel
  induction fuel with
  | zero => intro pos lm t L h; cases h
  | succ f ih =>
    intro pos lm t L h
    unfold decode_track_aux at h
    split_ifs at h with hdone
    · cases h
      intro p hp
      cases hp
    · cases hv : read_var_num data pos with
      | error e => rw [hv] at h; simp at h
      | ok p1 =>
        obtain ⟨delta, pos1⟩ := p1
        rw [hv] at h
        dsimp only at h
        cases he : decode_event data pos1 lm with
        | error e => rw [he] at h; simp at h
        | ok p2 =>
          obtain ⟨ev, pos2, lm2⟩ := p2
          rw [he] at h
          dsimp only at h
          cases hr : decode_track_aux data f pos2 lm2 (t + delta) with
          | error e => rw [hr] at h; simp at h
          | ok rest =>
            rw [hr] at h
            dsimp only at h
            cases h
            intro p hp
            rcases List.mem_cons.mp hp with rfl | hp2
            · simp
            · have := ih pos2 lm2 (t + delta) rest hr p hp2
              omega

theorem decode_track_aux_mono {data : List Nat} :
    ∀ (f g pos lm t : Nat), data.length - pos < f → data.length - pos < g →
      decode_track_aux data f pos lm t = decode_track_aux data g pos lm t := by
  intro f
  induction f with
  | zero => intro g pos lm t hf hg; omega
  | succ f2 ih =>
    intro g pos lm t hf hg
    cases g with
    | zero => omega
    | succ g2 =>
      unfold decode_track_aux
      split_ifs with hdone
      · rfl
      · cases hv : read_var_num data pos with
        | error e => rfl
        | ok p1 =>
          obtain ⟨delta, pos1⟩ := p1
          dsimp only
          cases he : decode_event data pos1 lm with
          | error e => rfl
          | ok p2 =>
            obtain ⟨ev, pos2, lm2⟩ := p2
            dsimp only
            obtain ⟨-, hp1, -, -⟩ := read_var_num_bound hv
            obtain ⟨hp2, hp2len⟩ := decode_event_progress he
            rw [ih g2 pos2 lm2 (t + delta) (by omega) (by omega)]

theorem filter_time_eq_nil {t : Nat} :
    ∀ {L : List (Nat × Event)}, (∀ p ∈ L, p.1 ≠ t) →
      L.filter (fun p => p.1 = t) = [] := by
  intro L
  induction L with
  | nil => intro _; rfl
  | cons p rest ih =>
    intro h
    have hp := h p (by simp)
    rw [List.filter_cons, if_neg (by simpa using hp)]
    exact ih (fun q hq => h q (by simp [hq]))

theorem filter_time_ne_self {t : Nat} :
    ∀ {L : List (Nat × Event)}, (∀ p ∈ L, p.1 ≠ t) →
      L.filter (fun p => p.1 ≠ t) = L := by
  intro L
  induction L with
  | nil => intro _; rfl
  | cons p rest ih =>
    intro h
    have hp := h p (by simp)
    rw [List.filter_cons, if_pos (by simpa using hp)]
    rw [ih (fun q hq => h q (by simp [hq]))]

theorem events_at_filter_ne {t0 s : Nat} (h : s ≠ t0) :
    ∀ (L : List (Nat × Event)),
      events_at (L.filter (fun p => p.1 ≠ t0)) s = events_at L s := by
  intro L
  unfold events_at
  congr 1
  rw [List.filter_filter]
  apply List.filter_congr
  intro p _
  rcases eq_or_ne p.1 s with hq | hq
  · simp [hq, h]
  · simp [hq]

theorem tick_events_filter_ne {Ls : List (List (Nat × Event))} {t0 s : Nat}
    (h : s ≠ t0) :
    tick_events (Ls.map (fun L => L.filter (fun p => p.1 ≠ t0))) s =
      tick_events Ls s := by
  unfold tick_events
  rw [List.map_map]
  congr 1
  apply List.map_congr_left
  intro L _
  exact events_at_filter_ne h L

theorem incs_sum_filter_ne {Ls : List (List (Nat × Event))} {tpq t0 : Nat} :
    ∀ (k uspq t : Nat), t0 < t →
      incs_sum (Ls.map (fun L => L.filter (fun p => p.1 ≠ t0))) tpq uspq t k =
        incs_sum Ls tpq uspq t k := by
  intro k
  induction k with
  | zero => intros; rfl
  | succ k2 ih =>
    intro uspq t ht
    unfold incs_sum
    dsimp only
    rw [tick_events_filter_ne (by omega), ih _ (t + 1) (by omega)]

theorem tempo_after_filter_ne {Ls : List (List (Nat × Event))} {t0 : Nat} :
    ∀ (k uspq t : Nat), t0 < t →
      tempo_after (Ls.map (fun L => L.filter (fun p => p.1 ≠ t0))) uspq t k =
        tempo_after Ls uspq t k := by
  intro k
  induction k with
  | zero => intros; rfl
  | succ k2 ih =>
    intro uspq t ht
    unfold tempo_after
    rw [tick_events_filter_ne (by omega), ih _ (t + 1) (by omega)]

theorem mem_tick_events {Ls : List (List (Nat × Event))} {t : Nat} {ev : Event}
    (h : ev ∈ tick_events Ls t) :
    ∃ L, L ∈ Ls ∧ ∃ p, p ∈ L ∧ p.1 = t ∧ p.2 = ev := by
  unfold tick_events at h
  rw [List.mem_flatten] at h
  obtain ⟨l, hl, hev⟩ := h
  rw [List.mem_map] at hl
  obtain ⟨L, hL, rfl⟩ := hl
  unfold events_at at hev
  rw [List.mem_map] at hev
  obtain ⟨p, hp, rfl⟩ := hev
  rw [List.mem_filter] at hp
  exact ⟨L, hL, p, hp.1, by simpa using hp.2, rfl⟩

theorem apply_tempo_ge {tpq : Nat} :
    ∀ (evs : List Event) (uspq : Nat), tpq ≤ uspq →
      (∀ ev ∈ evs, ∀ pl, ev = Event.meta 0x51 pl → tpq ≤ tempo_of_payload pl) →
      tpq ≤ apply_tempo uspq evs := by
  intro evs
  induction evs with
  | nil => intro uspq h _; exact h
  | cons ev rest ih =>
    intro uspq h hall
    have hstep : apply_tempo uspq (ev :: rest) =
        apply_tempo (apply_tempo_event uspq ev) rest := rfl
    rw [hstep]
    apply ih
    · cases ev with
      | meta ty pl =>
        show tpq ≤ if ty = 0x51 then tempo_of_payload pl else uspq
        by_cases hty : ty = 0x51
        · rw [if_pos hty]
          subst hty
          exact hall (Event.meta 0x51 pl) (by simp) pl rfl
        · rw [if_neg hty]
          exact h
      | note_off a b c => exact h
      | note_on a b c => exact h
      | polyphonic_key_pressure a b c => exact h
      | controller_change a b c => exact h
      | program_change a b => exact h
    · intro e he pl hpl
      exact hall e (by simp [he]) pl hpl

theorem next_division_sync :
    ∀ (fuel : Nat) (data : List Nat) (pos lm : Nat) (cd : Option Nat) (t : Nat)
      (L : List (Nat × Event)),
      sync ⟨data, pos, lm, cd⟩ t L → data.length - pos < fuel →
      ∃ pos2 lm2 cd2,
        next_division_aux data fuel pos lm cd =
          .ok (⟨data, pos2, lm2, cd2⟩, (L.filter (fun p => p.1 = t)).map Prod.snd) ∧
        sync ⟨data, pos2, lm2, cd2⟩ (t + 1) (L.filter (fun p => p.1 ≠ t)) := by
  intro fuel
  induction fuel with
  | zero => intro data pos lm cd t L hs hf; exact absurd hf (by omega)
  | succ f ih =>
    intro data pos lm cd t L hs hf
    cases cd with
    | none =>
      unfold sync at hs
      dsimp only at hs
      by_cases hdone : data.length ≤ pos
      · unfold decode_track_aux at hs
        rw [if_pos hdone] at hs
        cases hs
        refine ⟨pos, lm, none, ?_, ?_⟩
        · unfold next_division_aux
          rw [if_pos hdone]
          rfl
        · unfold sync
          dsimp only
          unfold decode_track_aux
          rw [if_pos hdone]
          rfl
      · unfold decode_track_aux at hs
        rw [if_neg hdone] at hs
        cases hv : read_var_num data pos with
        | error e => rw [hv] at hs; simp at hs
        | ok p1 =>
          obtain ⟨delta, pos1⟩ := p1
          rw [hv] at hs
          dsimp only at hs
          cases he : decode_event data pos1 lm with
          | error e => rw [he] at hs; simp at hs
          | ok p2 =>
            obtain ⟨ev, pos2x, lm2x⟩ := p2
            rw [he] at hs
            dsimp only at hs
            cases hr : decode_track_aux data data.length pos2x lm2x (t + delta) with
            | error e => rw [hr] at hs; simp at hs
            | ok rest =>
              rw [hr] at hs
              dsimp only at hs
              cases hs
              obtain ⟨-, hpp1, -, hp1len⟩ := read_var_num_bound hv
              obtain ⟨hpp2, hp2len⟩ := decode_event_progress he
              have hr1 : decode_track_aux data (data.length + 1) pos2x lm2x (t + delta) =
                  .ok rest := by
                rw [decode_track_aux_mono (data.length + 1) data.length pos2x lm2x
                  (t + delta) (by omega) (by omega)]
                exact hr
              by_cases hdelta : delta = 0
              · subst hdelta
                have hsync2 : sync ⟨data, pos2x, lm2x, none⟩ t rest := by
                  unfold sync
                  dsimp only
                  simpa using hr1
                obtain ⟨pos3, lm3, cd3, haux, hsync3⟩ :=
                  ih data pos2x lm2x none t rest hsync2 (by omega)
                refine ⟨pos3, lm3, cd3, ?_, ?_⟩
                · unfold next_division_aux
                  rw [if_neg hdone]
                  dsimp only
                  rw [hv]
                  dsimp only
                  rw [if_pos rfl, he]
                  dsimp only
                  rw [haux]
                  dsimp only
                  congr 1
                  simp [List.filter_cons, events_at]
                · simpa [List.filter_cons] using hsync3
              · have htimes : ∀ p ∈ (t + delta, ev) :: rest, p.1 ≠ t := by
                  intro p hp
                  rcases List.mem_cons.mp hp with rfl | hp2
                  · simp
                    omega
                  · have := decode_track_aux_times data.length pos2x lm2x (t + delta)
                      rest hr p hp2
                    omega
                refine ⟨pos1, lm, some (delta - 1), ?_, ?_⟩
                · unfold next_division_aux
                  rw [if_neg hdone]
                  dsimp only
                  rw [hv]
                  dsimp only
                  rw [if_neg hdelta, filter_time_eq_nil htimes]
                  rfl
                · unfold sync
                  dsimp only
                  rw [if_neg (by omega : ¬ data.length ≤ pos1)]
                  refine ⟨ev, pos2x, lm2x, rest, he, ?_, ?_⟩
                  · have harg : (t + 1) + (delta - 1) = t + delta := by omega
                    rw [harg]
                    exact hr1
                  · rw [filter_time_ne_self htimes]
                    have harg : (t + 1) + (delta - 1) = t + delta := by omega
                    rw [harg]
    | some k =>
      unfold sync at hs
      dsimp only at hs
      by_cases hdone : data.length ≤ pos
      · rw [if_pos hdone] at hs
        subst hs
        refine ⟨pos, lm, some k, ?_, ?_⟩
        · unfold next_division_aux
          rw [if_pos hdone]
          rfl
        · unfold sync
          dsimp only
          rw [if_pos hdone]
          rfl
      · rw [if_neg hdone] at hs
        obtain ⟨ev, pos2x, lm2x, rest, he, hr, hL⟩ := hs
        subst hL
        obtain ⟨hpp2, hp2len⟩ := decode_event_progress he
        by_cases hk : k = 0
        · subst hk
          have hsync2 : sync ⟨data, pos2x, lm2x, none⟩ t rest := by
            unfold sync
            dsimp only
            simpa using hr
          obtain ⟨pos3, lm3, cd3, haux, hsync3⟩ :=
            ih data pos2x lm2x none t rest hsync2 (by omega)
          refine ⟨pos3, lm3, cd3, ?_, ?_⟩
          · unfold next_division_aux
            rw [if_neg hdone]
            dsimp only
            rw [if_pos rfl, he]
            dsimp only
            rw [haux]
            dsimp only
            congr 1
            simp [List.filter_cons, events_at]
          · simpa [List.filter_cons] using hsync3
        · have htimes : ∀ p ∈ (t + k, ev) :: rest, p.1 ≠ t := by
            intro p hp
            rcases List.mem_cons.mp hp with rfl | hp2
            · simp
              omega
            · have := decode_track_aux_times (data.length + 1) pos2x lm2x (t + k)
                rest hr p hp2
              omega
          refine ⟨pos, lm, some (k - 1), ?_, ?_⟩
          · unfold next_division_aux
            rw [if_neg hdone]
            dsimp only
            rw [if_neg hk, filter_time_eq_nil htimes]
            rfl
          · unfold sync
            dsimp only
            rw [if_neg hdone]
            refine ⟨ev, pos2x, lm2x, rest, he, ?_, ?_⟩
            · have harg : (t + 1) + (k - 1) = t + k := by omega
              rw [harg]
              exact hr
            · rw [filter_time_ne_self htimes]
              have harg : (t + 1) + (k - 1) = t + k := by omega
              rw [harg]

theorem tick_tracks_sync {t : Nat} :
    ∀ {tracks : List TrackState} {Ls : List (List (Nat × Event))},
      List.Forall₂ (fun st L => sync st t L) tracks Ls →
      ∃ tracks2, tick_tracks tracks = .ok (tracks2, tick_events Ls t) ∧
        List.Forall₂ (fun st L => sync st (t + 1) L) tracks2
          (Ls.map (fun L => L.filter (fun p => p.1 ≠ t))) := by
  intro tracks Ls h
  induction h with
  | nil => exact ⟨[], rfl, .nil⟩
  | @cons st L tracks' Ls' hst hrest ih =>
    obtain ⟨tracks2, haux, hsync2⟩ := ih
    obtain ⟨data, pos, lm, cd⟩ := st
    obtain ⟨pos2, lm2, cd2, hnd, hsync⟩ :=
      next_division_sync (data.length + 1) data pos lm cd t L hst (by omega)
    refine ⟨⟨data, pos2, lm2, cd2⟩ :: tracks2, ?_, .cons hsync hsync2⟩
    unfold tick_tracks
    rw [show next_division ⟨data, pos, lm, cd⟩ =
      next_division_aux data (data.length + 1) pos lm cd from rfl, hnd]
    dsimp only
    rw [haux]
    simp only [tick_events, events_at, List.map_cons, List.flatten_cons]

theorem flatten_range_shift (g : Nat → List Event) (k t : Nat) :
    ((List.range (k + 1)).map (fun i => g (t + i))).flatten =
      g t ++ ((List.range k).map (fun i => g (t + 1 + i))).flatten := by
  rw [List.range_succ_eq_map]
  simp only [List.map_cons, List.flatten_cons, List.map_map, Nat.add_zero]
  congr 2
  apply List.map_congr_left
  intro i _
  simp only [Function.comp]
  congr 1
  omega

theorem advance_loop_spec :
    ∀ (fuel : Nat) (ps : PlayerState) (Ls : List (List (Nat × Event))),
      List.Forall₂ (fun st L => sync st ps.current_tick L) ps.tracks Ls →
      (∀ L ∈ Ls, ∀ p ∈ L, ∀ pl, p.2 = Event.meta 0x51 pl →
        ps.ticks_per_quarter ≤ tempo_of_payload pl) →
      ps.ticks_per_quarter ≤ ps.us_per_quarter →
      0 < ps.ticks_per_quarter →
      Int.toNat (1 - ps.us_to_next_tick) < fuel →
      ∃ k ps2,
        advance_loop fuel ps = .ok (ps2,
          ((List.range k).map (fun i => tick_events Ls (ps.current_tick + i))).flatten) ∧
        ps2.current_tick = ps.current_tick + k ∧
        ps2.ticks_per_quarter = ps.ticks_per_quarter ∧
        ps2.us_per_quarter = tempo_after Ls ps.us_per_quarter ps.current_tick k ∧
        ps2.us_to_next_tick = ps.us_to_next_tick +
          (incs_sum Ls ps.ticks_per_quarter ps.us_per_quarter ps.current_tick k : Int) ∧
        0 < ps2.us_to_next_tick ∧
        (∀ i < k, ps.us_to_next_tick +
          (incs_sum Ls ps.ticks_per_quarter ps.us_per_quarter ps.current_tick i : Int) ≤ 0) ∧
        (0 < ps.us_to_next_tick → k = 0) := by
  intro fuel
  induction fuel with
  | zero => intro ps Ls _ _ _ _ hf; exact absurd hf (by omega)
  | succ f ih =>
    intro ps Ls hsync htempo huspq htpq hf
    by_cases hpos : ps.us_to_next_tick ≤ 0
    · obtain ⟨tracks2, htt, hsync2⟩ := tick_tracks_sync hsync
      have huspq1ge : ps.ticks_per_quarter ≤
          apply_tempo ps.us_per_quarter (tick_events Ls ps.current_tick) := by
        apply apply_tempo_ge _ _ huspq
        intro ev hev pl hpl
        obtain ⟨L, hL, p, hp, hpt, hpe⟩ := mem_tick_events hev
        exact htempo L hL p hp pl (by rw [hpe, hpl])
      have hinc : 1 ≤ apply_tempo ps.us_per_quarter (tick_events Ls ps.current_tick) /
          ps.ticks_per_quarter := (Nat.one_le_div_iff htpq).mpr huspq1ge
      have hts : tick_step ps = .ok
          ({ tracks := tracks2, current_tick := ps.current_tick + 1,
             us_to_next_tick := ps.us_to_next_tick +
               (apply_tempo ps.us_per_quarter (tick_events Ls ps.current_tick) /
                 ps.ticks_per_quarter : Nat),
             us_per_quarter := apply_tempo ps.us_per_quarter (tick_events Ls ps.current_tick),
             ticks_per_quarter := ps.ticks_per_quarter },
           tick_events Ls ps.current_tick) := by
        unfold tick_step
        rw [htt]
      have htempo2 : ∀ L ∈ Ls.map (fun L => L.filter (fun p => p.1 ≠ ps.current_tick)),
          ∀ p ∈ L, ∀ pl, p.2 = Event.meta 0x51 pl →
          ps.ticks_per_quarter ≤ tempo_of_payload pl := by
        intro L hL p hp pl hpl
        rw [List.mem_map] at hL
        obtain ⟨L0, hL0, rfl⟩ := hL
        exact htempo L0 hL0 p (List.mem_filter.mp hp).1 pl hpl
      obtain ⟨k, ps3, hloop, hct, htpq3, huspq3, hus3, hpos3, hpartial, -⟩ :=
        ih { tracks := tracks2, current_tick := ps.current_tick + 1,
             us_to_next_tick := ps.us_to_next_tick +
               (apply_tempo ps.us_per_quarter (tick_events Ls ps.current_tick) /
                 ps.ticks_per_quarter : Nat),
             us_per_quarter := apply_tempo ps.us_per_quarter (tick_events Ls ps.current_tick),
             ticks_per_quarter := ps.ticks_per_quarter }
          (Ls.map (fun L => L.filter (fun p => p.1 ≠ ps.current_tick)))
          hsync2 htempo2 huspq1ge htpq (by dsimp only; omega)
      dsimp only at hct htpq3 huspq3 hus3 hpos3 hpartial hloop
      have hev : ((List.range (k + 1)).map
            (fun i => tick_events Ls (ps.current_tick + i))).flatten =
          tick_events Ls ps.current_tick ++
            ((List.range k).map (fun i =>
              tick_events (Ls.map (fun L => L.filter (fun p => p.1 ≠ ps.current_tick)))
                (ps.current_tick + 1 + i))).flatten := by
        rw [flatten_range_shift (tick_events Ls) k ps.current_tick]
        congr 1
        congr 1
        apply List.map_congr_left
        intro i _
        exact (tick_events_filter_ne (by omega)).symm
      refine ⟨k + 1, ps3, ?_, ?_, ?_, ?_, ?_, ?_, ?_, ?_⟩
      · rw [hev]
        unfold advance_loop
        rw [if_pos hpos, hts]
        dsimp only
        rw [hloop]
      · omega
      · exact htpq3
      · rw [huspq3, tempo_after_filter_ne k _ _ (by omega)]
        rfl
      · have hdef : incs_sum Ls ps.ticks_per_quarter ps.us_per_quarter ps.current_tick
            (k + 1) =
            apply_tempo ps.us_per_quarter (tick_events Ls ps.current_tick) /
                ps.ticks_per_quarter +
              incs_sum Ls ps.ticks_per_quarter
                (apply_tempo ps.us_per_quarter (tick_events Ls ps.current_tick))
                (ps.current_tick + 1) k := rfl
        rw [hus3, incs_sum_filter_ne k _ _ (by omega), hdef]
        push_cast
        ring
      · exact hpos3
      · intro i hi
        cases i with
        | zero =>
          show ps.us_to_next_tick + ((0 : Nat) : Int) ≤ 0
          omega
        | succ i2 =>
          have hp2 := hpartial i2 (by omega)
          rw [incs_sum_filter_ne i2 _ _ (by omega)] at hp2
          show ps.us_to_next_tick +
            (incs_sum Ls ps.ticks_per_quarter ps.us_per_quarter ps.current_tick
              (i2 + 1) : Int) ≤ 0
          unfold incs_sum
          dsimp only
          push_cast at hp2 ⊢
          omega
      · intro h
        exact absurd h (by omega)
    · push_neg at hpos
      refine ⟨0, ps, ?_, by omega, rfl, rfl, by simp [incs_sum], by omega, by omega, fun _ => rfl⟩
      unfold advance_loop
      rw [if_neg (by omega)]
      rfl

/-! ## C1 -/

/-- C1: advance subtracts the elapsed microseconds from
microsecondsToNextTick and, while that value is at most zero, performs one
tick per iteration: every track, visited in track index order, dispatches
exactly the pending decoded events whose cumulative delta-tick sum equals the
current tick value, in decode order (tick_events of the reference decode);
then currentTick is incremented and microsecondsPerQuarterNote /
ticksPerQuarterNote (integer division) is added to microsecondsToNextTick.
The hypotheses provide the reference decode of every track (sync), a positive
clock, a tick length of at least one microsecond, and the elapsed time bounds
0 < dus < 1000000 implied by 0 < deltaSeconds < 1. -/
theorem advance_spec (ps : PlayerState) (dus : Nat) (Ls : List (List (Nat × Event)))
    (hsync : List.Forall₂ (fun st L => sync st ps.current_tick L) ps.tracks Ls)
    (htempo : ∀ L ∈ Ls, ∀ p ∈ L, ∀ pl, p.2 = Event.meta 0x51 pl →
      ps.ticks_per_quarter ≤ tempo_of_payload pl)
    (huspq : ps.ticks_per_quarter ≤ ps.us_per_quarter)
    (htpq : 0 < ps.ticks_per_quarter)
    (hclock : 0 < ps.us_to_next_tick)
    (hdus : 0 < dus) (hdusmax : dus < 1000000) :
    ∃ k ps2,
      advance dus ps = .ok (ps2,
        ((List.range k).map (fun i => tick_events Ls (ps.current_tick + i))).flatten) ∧
      ps2.current_tick = ps.current_tick + k ∧
      ps2.us_to_next_tick = ps.us_to_next_tick - dus +
        (incs_sum Ls ps.ticks_per_quarter ps.us_per_quarter ps.current_tick k : Int) ∧
      0 < ps2.us_to_next_tick ∧
      (∀ i < k, ps.us_to_next_tick - dus +
        (incs_sum Ls ps.ticks_per_quarter ps.us_per_quarter ps.current_tick i : Int) ≤ 0) ∧
      (k = 0 ↔ dus < ps.us_to_next_tick) ∧
      ps2.us_per_quarter = tempo_after Ls ps.us_per_quarter ps.current_tick k ∧
      ps2.ticks_per_quarter = ps.ticks_per_quarter := by
  have h := advance_loop_spec (dus + 1)
    { ps with us_to_next_tick := ps.us_to_next_tick - dus } Ls
    hsync htempo huspq htpq (by dsimp only; omega)
  dsimp only at h
  obtain ⟨k, ps2, hloop, hct, htpq2, huspq2, hus2, hpos2, hpartial, hk0⟩ := h
  refine ⟨k, ps2, hloop, hct, hus2, hpos2, hpartial, ?_, huspq2, htpq2⟩
  constructor
  · intro hkz
    subst hkz
    simp [incs_sum] at hus2
    omega
  · intro hlt
    exact hk0 (by omega)

/-- Witness for C1: a one-track player whose single note-on at tick 0 is
dispatched by one tick of an advance of 5 microseconds. -/
theorem advance_spec_witness :
    ∃ k ps2,
      advance 5 { tracks := [TrackState.init [0x00, 0x90, 0x3C, 0x40]],
                  current_tick := 0, us_to_next_tick := 1,
                  us_per_quarter := 500000, ticks_per_quarter := 96 } = .ok (ps2,
        ((List.range k).map (fun i =>
          tick_events [[(0, Event.note_on 0 40 64)]] (0 + i))).flatten) ∧
      ps2.current_tick = 0 + k ∧
      ps2.us_to_next_tick = 1 - (5 : Nat) +
        (incs_sum [[(0, Event.note_on 0 40 64)]] 96 500000 0 k : Int) ∧
      0 < ps2.us_to_next_tick ∧
      (∀ i < k, (1 : Int) - (5 : Nat) +
        (incs_sum [[(0, Event.note_on 0 40 64)]] 96 500000 0 i : Int) ≤ 0) ∧
      (k = 0 ↔ (5 : Nat) < (1 : Int)) ∧
      ps2.us_per_quarter = tempo_after [[(0, Event.note_on 0 40 64)]] 500000 0 k ∧
      ps2.ticks_per_quarter = 96 :=
  advance_spec
    { tracks := [TrackState.init [0x00, 0x90, 0x3C, 0x40]],
      current_tick := 0, us_to_next_tick := 1,
      us_per_quarter := 500000, ticks_per_quarter := 96 }
    5 [[(0, Event.note_on 0 40 64)]]
    (.cons (show decode_track_aux [0x00, 0x90, 0x3C, 0x40] 5 0 0 0 =
        .ok [(0, Event.note_on 0 40 64)] from rfl) .nil)
    (by
      intro L hL p hp pl hpl
      simp only [List.mem_singleton] at hL
      subst hL
      simp only [List.mem_singleton] at hp
      subst hp
      simp at hpl)
    (by norm_num) (by norm_num) (by norm_num) (by norm_num) (by norm_num)

/-! ## C7 -/

/-- C7: before any Set Tempo event the tempo state equals 500000
microseconds per quarter note; a Set Tempo meta event (type 0x51) with a
3-byte big-endian payload sets microsecondsPerQuarterNote to the payload
value while every other event leaves it unchanged; and each tick adds the
tempo in force after the dispatched events, divided by ticksPerQuarterNote,
to microsecondsToNextTick, so the new value governs all subsequent
tick-interval computations. -/
theorem set_tempo_spec :
    (∀ (tracks : List (List Nat)) (tpq : Nat),
      (player_init tracks tpq).us_per_quarter = 500000) ∧
    (∀ (a b c : Nat), tempo_of_payload [a, b, c] = a * 65536 + b * 256 + c) ∧
    (∀ (uspq a b c : Nat),
      apply_tempo_event uspq (.meta 0x51 [a, b, c]) = a * 65536 + b * 256 + c) ∧
    (∀ (uspq : Nat) (ev : Event), (∀ pl, ev ≠ .meta 0x51 pl) →
      apply_tempo_event uspq ev = uspq) ∧
    (∀ (ps : PlayerState) (tracks2 : List TrackState) (evs : List Event),
      tick_tracks ps.tracks = .ok (tracks2, evs) →
      tick_step ps = .ok ({ tracks := tracks2,
                            current_tick := ps.current_tick + 1,
                            us_to_next_tick := ps.us_to_next_tick +
                              (apply_tempo ps.us_per_quarter evs / ps.ticks_per_quarter : Nat),
                            us_per_quarter := apply_tempo ps.us_per_quarter evs,
                            ticks_per_quarter := ps.ticks_per_quarter }, evs)) := by
  refine ⟨fun tracks tpq => rfl, fun a b c => rfl, fun uspq a b c => rfl, ?_, ?_⟩
  · intro uspq ev h
    cases ev with
    | meta ty pl =>
      show (if ty = 0x51 then tempo_of_payload pl else uspq) = uspq
      rw [if_neg]
      intro hty
      subst hty
      exact h pl rfl
    | note_off a b c => rfl
    | note_on a b c => rfl
    | polyphonic_key_pressure a b c => rfl
    | controller_change a b c => rfl
    | program_change a b => rfl
  · intro ps tracks2 evs htt
    unfold tick_step
    rw [htt]

/-- Witness for C7: a non-tempo event leaves the tempo unchanged, and a tick
of an empty player charges 500000 / 96 microseconds. -/
theorem set_tempo_spec_witness :
    apply_tempo_event 500000 (.note_on 0 40 64) = 500000 ∧
    tick_step { tracks := [], current_tick := 0, us_to_next_tick := 0,
                us_per_quarter := 500000, ticks_per_quarter := 96 } =
      .ok ({ tracks := [], current_tick := 0 + 1,
             us_to_next_tick := 0 + (apply_tempo 500000 [] / 96 : Nat),
             us_per_quarter := apply_tempo 500000 [],
             ticks_per_quarter := 96 }, []) :=
  ⟨set_tempo_spec.2.2.2.1 500000 (.note_on 0 40 64) (fun pl => by simp),
   set_tempo_spec.2.2.2.2
     { tracks := [], current_tick := 0, us_to_next_tick := 0,
       us_per_quarter := 500000, ticks_per_quarter := 96 } [] [] rfl⟩

end Splay
